import Mathlib

/-
Verification of the scene model of the React-component canvas tool
(`src/unnamed/part_003`, the application script). The embedding below
translates the node-tree model, the connection model, the selection
transitions, the history (undo) manager and the structural mutation
handlers into Lean. JavaScript reference identity is modeled by a
numeric `id` carried by every heap object (nodes, prop objects,
connections); numeric canvas coordinates are modeled over `Int`;
JavaScript exceptions (`TypeError`) are modeled with `Except String`.
-/

namespace DraftCanvas

/-- A prop object `{ name, value }` as stored in `component.props` (source
lines 3120-3124). `pid` models JavaScript object identity: the array spread
`[...component.props]` in `deepCloneComponent` (line 1725) copies the array
but keeps the same prop objects, hence the same `pid`s. -/
structure PropObj where
  pid : Nat
  name : String
  value : String
deriving DecidableEq, Repr

/-- Scalar fields of a canvas node, from `createNewComponent` (lines 382-399)
and the event-box literal in `createHookFromInput` (lines 3233-3243). `id`
models JavaScript reference identity (nodes are compared with `===` and held
by reference in lists, selections and connections); `ty` is the source field
`type`; `description` is populated on event boxes. -/
structure NodeCore where
  id : Nat
  name : String
  x : Int
  y : Int
  w : Int
  h : Int
  expanded : Bool
  ty : String
  pattern : String
  isEventBox : Bool
  props : List PropObj
  state : List PropObj
  hooks : List PropObj
  events : List PropObj
  notes : String
  description : String
deriving DecidableEq, Repr

/-- A node: the scalar core plus the `children` field. `children` is
`Option (List JNode)` because regular components are created with an array
(`children: []`, line 389) while event boxes are created without any
`children` field at all (lines 3233-3243), i.e. `undefined`. -/
inductive JNode where
  | mk : NodeCore → Option (List JNode) → JNode
deriving Repr

def JNode.core : JNode → NodeCore
  | .mk c _ => c

def JNode.children : JNode → Option (List JNode)
  | .mk _ cs => cs

def JNode.id (n : JNode) : Nat := n.core.id

def JNode.name (n : JNode) : String := n.core.name

def JNode.x (n : JNode) : Int := n.core.x

def JNode.y (n : JNode) : Int := n.core.y

def JNode.w (n : JNode) : Int := n.core.w

def JNode.h (n : JNode) : Int := n.core.h

def JNode.expanded (n : JNode) : Bool := n.core.expanded

def JNode.ty (n : JNode) : String := n.core.ty

def JNode.isEventBox (n : JNode) : Bool := n.core.isEventBox

/-- Overwrite a node's position (models `duplicatedFile.x = x + 20; ...` and
`draggingFile.x = x - offsetX; ...`). -/
def setPos (nx ny : Int) : JNode → JNode
  | .mk c och => .mk { c with x := nx, y := ny } och

/-- Replace a node's children array (models writing back a child list that
the source mutated in place through an alias). -/
def setChildren (cs : List JNode) : JNode → JNode
  | .mk c _ => .mk c (some cs)

mutual
/-- Structural equality test for nodes (used to model value comparison of
deep-cloned snapshots; JavaScript reference equality is `JNode.id`). -/
def JNode.beq : JNode → JNode → Bool
  | .mk c cs, .mk d ds => c == d && JNode.beqOpt cs ds

def JNode.beqOpt : Option (List JNode) → Option (List JNode) → Bool
  | none, none => true
  | some l, some m => JNode.beqList l m
  | _, _ => false

def JNode.beqList : List JNode → List JNode → Bool
  | [], [] => true
  | a :: l, b :: m => JNode.beq a b && JNode.beqList l m
  | _, _ => false
end

instance : BEq JNode := ⟨JNode.beq⟩

/-- A connection `{ id, from, to }` (source lines 371-379). `fromId` and
`toId` model the JavaScript node references `from` and `to`. The cached
boundary coordinates `fromPoint`/`toPoint` are display-only values recomputed
from node geometry on every render and are not part of the model. -/
structure Conn where
  id : Nat
  fromId : Nat
  toId : Nat
deriving DecidableEq, Repr

/-- Source lines 364-369: `connectionExists(from, to)` returns the first
connection joining the two nodes in either direction (or `undefined`). -/
def connectionExists (fromId toId : Nat) (conns : List Conn) : Option Conn :=
  conns.find? fun conn =>
    (conn.fromId == fromId && conn.toId == toId) ||
    (conn.fromId == toId && conn.toId == fromId)

mutual
/-- All node ids of the subtree rooted at a node (the node itself first). -/
def subtreeIds : JNode → List Nat
  | .mk c none => [c.id]
  | .mk c (some cs) => c.id :: forestIds cs

/-- All node ids occurring in a forest, in depth-first order. -/
def forestIds : List JNode → List Nat
  | [] => []
  | n :: ns => subtreeIds n ++ forestIds ns
end

mutual
/-- First node with the given id in a forest, searching depth-first. Models
dereferencing a JavaScript node reference against the live tree. -/
def findById (i : Nat) : List JNode → Option JNode
  | [] => none
  | n :: ns =>
    match findByIdTree i n with
    | some r => some r
    | none => findById i ns

def findByIdTree (i : Nat) : JNode → Option JNode
  | .mk c none => if c.id == i then some (.mk c none) else none
  | .mk c (some cs) =>
    if c.id == i then some (.mk c (some cs)) else findById i cs
end

mutual
/-- Source lines 1423-1432 (`flattenComponents` inside
`reconstructConnections`): every component of the forest, each node before
its children, siblings in order. -/
def flattenComponents : List JNode → List JNode
  | [] => []
  | n :: ns => flattenTree n ++ flattenComponents ns

def flattenTree : JNode → List JNode
  | .mk c none => [.mk c none]
  | .mk c (some cs) =>
    .mk c (some cs) ::
      (if cs.length > 0 then flattenComponents cs else [])
end

mutual
/-- Source lines 2115-2124: `isDescendantOf(potentialChild, potentialParent)`
walks `potentialParent.children` recursively, comparing with `===` (modeled by
id). Returns `false` when `children` is absent. -/
def isDescendantOf (childId : Nat) : JNode → Bool
  | .mk _ none => false
  | .mk _ (some cs) => isDescendantOfList childId cs

def isDescendantOfList (childId : Nat) : List JNode → Bool
  | [] => false
  | c :: cs =>
    c.id == childId || isDescendantOf childId c || isDescendantOfList childId cs
end

/-- The point-in-box test of `findFileAtPosition` (lines 2061-2070). The
`!== undefined` guards of the source always pass here because the model gives
every node numeric `x`, `y`, `w`, `h`. -/
def inBox (x y : Int) (f : JNode) : Bool :=
  x ≥ f.x && x ≤ f.x + f.w && y ≥ f.y && y ≤ f.y + f.h

/-- Source lines 3392-3400: `getParentComponent(eventBox)` returns the `from`
node of the first connection whose `to` is the event box, else `null`. The
source returns the live object behind `connection.from`; the model
dereferences that reference in the root forest. -/
def getParentComponent (conns : List Conn) (root : List JNode) (f : JNode) :
    Option JNode :=
  if !f.isEventBox then none
  else
    match conns.find? fun conn => conn.toId == f.id with
    | some conn => findById conn.fromId root
    | none => none

/-- The skip test of `findFileAtPosition` (lines 2047-2052): an event box is
skipped when its owning parent exists and is collapsed. -/
def skipsHiddenEventBox (conns : List Conn) (root : List JNode) (f : JNode) :
    Bool :=
  f.isEventBox &&
    match getParentComponent conns root f with
    | some parent => !parent.expanded
    | none => false

mutual
/-- Source lines 2042-2075: `findFileAtPosition(x, y, list)` iterates the list
from its last element down to its first; for each non-skipped node it searches
the node's children first (when present and non-empty) and only then tests the
node's own box. The recursion below tries the tail (the later elements) first,
which is exactly the source's last-to-first loop. `conns` and `root` model the
global `connections` and `files` read by the skip test. -/
def findFileAtPosition (x y : Int) (conns : List Conn) (root : List JNode) :
    List JNode → Option JNode
  | [] => none
  | f :: rest =>
    match findFileAtPosition x y conns root rest with
    | some n => some n
    | none => findFileAtPositionOne x y conns root f

/-- One iteration of the `findFileAtPosition` loop body, for the node `f`. -/
def findFileAtPositionOne (x y : Int) (conns : List Conn) (root : List JNode) :
    JNode → Option JNode
  | .mk c och =>
    if skipsHiddenEventBox conns root (.mk c och) then none
    else
      match och with
      | some cs =>
        if cs.length > 0 then
          match findFileAtPosition x y conns root cs with
          | some n => some n
          | none =>
            if inBox x y (.mk c (some cs)) then some (.mk c (some cs)) else none
        else if inBox x y (.mk c (some cs)) then some (.mk c (some cs)) else none
      | none =>
        if inBox x y (.mk c none) then some (.mk c none) else none
end

/-- The second loop of `findDropTarget` (lines 2092-2109), in list order. -/
def findDropTargetLevel (x y : Int) (dragged : JNode) :
    List JNode → Option JNode
  | [] => none
  | f :: rest =>
    if f.id != dragged.id && !f.isEventBox && inBox x y f &&
        !isDescendantOf f.id dragged then
      some f
    else findDropTargetLevel x y dragged rest

mutual
/-- One step of the first loop of `findDropTarget` (lines 2085-2089): for an
entry that is not the dragged node, has a non-empty children array and is not
an event box, recurse into its children with the body of `findDropTarget`.
The recursive call in the source re-tests `draggedFile.isEventBox`, which is
constant along the recursion and false whenever this loop runs, so that test
lives in the `findDropTarget` wrapper and the recursive call appears here as
its else-branch (children loop, then level scan). -/
def findDropTargetChild (x y : Int) (dragged : JNode) : JNode → Option JNode
  | .mk _ none => none
  | .mk c (some cs) =>
    if c.id != dragged.id && cs.length > 0 && !c.isEventBox then
      match findDropTargetNested x y dragged cs with
      | some t => some t
      | none => findDropTargetLevel x y dragged cs
    else none

/-- The first loop of `findDropTarget` (lines 2084-2090), in list order. -/
def findDropTargetNested (x y : Int) (dragged : JNode) :
    List JNode → Option JNode
  | [] => none
  | f :: rest =>
    match findDropTargetChild x y dragged f with
    | some t => some t
    | none => findDropTargetNested x y dragged rest
end

/-- Source lines 2077-2112: `findDropTarget(x, y, draggedFile, list)` returns
`null` when the dragged node is an event box; otherwise it first recurses into
children lists (deeper components take priority) and then scans the current
level for the first node that is not the dragged node, is not an event box,
contains the point and is not a descendant of the dragged node. -/
def findDropTarget (x y : Int) (dragged : JNode) (l : List JNode) :
    Option JNode :=
  if dragged.isEventBox then none
  else
    match findDropTargetNested x y dragged l with
    | some t => some t
    | none => findDropTargetLevel x y dragged l

/-- Result of `removeFile`: the updated list, the updated globals
`connections` and `selectedConnection`, and the returned found flag. -/
structure RemoveOut where
  list : List JNode
  conns : List Conn
  selConn : Option Conn
  found : Bool
deriving Repr

/-- The found-at-this-level outcome of `removeFile` (lines 2128-2142): splice
the target out, filter every connection whose `from` or `to` is the target,
and clear `selectedConnection` when it references the target. -/
def removeHere (targetId : Nat) (conns : List Conn) (selConn : Option Conn)
    (list : List JNode) (i : Nat) : RemoveOut :=
  { list := list.eraseIdx i,
    conns := conns.filter fun c => c.fromId != targetId && c.toId != targetId,
    selConn :=
      match selConn with
      | some sc =>
        if sc.fromId == targetId || sc.toId == targetId then none
        else some sc
      | none => none,
    found := true }

mutual
/-- One step of the recursive loop of `removeFile` (lines 2144-2146): the
call `removeFile(target, file.children)`. With no `children` field (event
boxes) the callee evaluates `undefined.indexOf` — a `TypeError`; otherwise it
is the index lookup of `removeFile` followed by its scan loop, inlined here
so the recursion is structural. -/
def removeFileChild (targetId : Nat) (conns : List Conn)
    (selConn : Option Conn) : JNode → Except String RemoveOut
  | .mk _ none =>
    .error "TypeError: Cannot read properties of undefined (reading indexOf)"
  | .mk _ (some cs) =>
    match cs.findIdx? (fun n => n.id == targetId) with
    | some i => .ok (removeHere targetId conns selConn cs i)
    | none => removeFileScan targetId conns selConn cs

/-- The recursive loop of `removeFile` (lines 2144-2146), reached when
`list.indexOf(target)` missed: call `removeFile` on each entry's `children`
in order; a hit inside a child list is written back in place (the source
mutates the array through the alias). -/
def removeFileScan (targetId : Nat) (conns : List Conn)
    (selConn : Option Conn) : List JNode → Except String RemoveOut
  | [] => .ok ⟨[], conns, selConn, false⟩
  | f :: rest =>
    match removeFileChild targetId conns selConn f with
    | .error e => .error e
    | .ok r =>
      if r.found then
        .ok ⟨setChildren r.list f :: rest, r.conns, r.selConn, true⟩
      else
        match removeFileScan targetId conns selConn rest with
        | .error e => .error e
        | .ok r2 => .ok ⟨f :: r2.list, r2.conns, r2.selConn, r2.found⟩
end

/-- Source lines 2126-2148: `removeFile(target, list)` splices the target out
of the first list containing it, searching the given list first
(`list.indexOf`) and then every entry's `children` recursively; removing also
filters the global `connections` and clears a `selectedConnection` that
references the target. Called on `undefined` (an absent `children` field) it
throws. -/
def removeFile (targetId : Nat) (conns : List Conn) (selConn : Option Conn) :
    Option (List JNode) → Except String RemoveOut
  | none =>
    .error "TypeError: Cannot read properties of undefined (reading indexOf)"
  | some list =>
    match list.findIdx? (fun n => n.id == targetId) with
    | some i => .ok (removeHere targetId conns selConn list i)
    | none => removeFileScan targetId conns selConn list

/-- Result of `findParentOfComponent` (lines 2590-2605): the source returns
`{parent: undefined, list: null}` when the target is nowhere in the tree
(`notFound` here), and otherwise `{parent, list}` where `parent` is `null`
(`none` here) when the target sits in the initial search list and the
containing list is returned alongside. -/
inductive FPResult where
  | found (parent : Option JNode) (list : List JNode)
  | notFound

mutual
/-- The children recursion of `findParentOfComponent` (lines 2598-2601): when
an entry has a non-empty children array, restart the search on the children
with the entry as parent. -/
def fpocChild (targetId : Nat) : JNode → FPResult
  | .mk _ none => .notFound
  | .mk c (some cs) =>
    if cs.length > 0 then fpocLoop targetId cs (some (.mk c (some cs))) cs
    else .notFound

/-- The iteration of `findParentOfComponent` (lines 2592-2602) over the
remaining entries: compare each entry with the target by reference, returning
the accumulated `parent` together with the whole `searchList`; otherwise
recurse into the entry's children. -/
def fpocLoop (targetId : Nat) (searchList : List JNode)
    (parent : Option JNode) : List JNode → FPResult
  | [] => .notFound
  | f :: rest =>
    if f.id == targetId then .found parent searchList
    else
      match fpocChild targetId f with
      | .found p l => .found p l
      | .notFound => fpocLoop targetId searchList parent rest
end

/-- Source lines 2590-2605: `findParentOfComponent(targetFile, searchList,
parent = null)`. Returns `{parent: undefined, list: null}` (`notFound`) when
the target is nowhere, and otherwise the containing list together with its
parent (`none` = the JS `null` for a top-level hit). -/
def findParentOfComponent (targetId : Nat) (searchList : List JNode)
    (parent : Option JNode) : FPResult :=
  fpocLoop targetId searchList parent searchList

/-- Source lines 382-399: `createNewComponent(name, x, y)`, a fresh component
with empty children array, expanded, default size 160x40 and
`type: 'Component'`. `i` is the identity of the new object. -/
def createNewComponent (i : Nat) (name : String) (x y : Int) : JNode :=
  .mk { id := i, name := name, x := x, y := y, w := 160, h := 40,
        expanded := true, ty := "Component", pattern := "", isEventBox := false,
        props := [], state := [], hooks := [], events := [], notes := "",
        description := "" } (some [])

/-- Source lines 3233-3243: the event-box literal of `createHookFromInput`,
positioned right of the selected component, fixed 200x60, `type: 'HOOK'`,
`isEventBox: true`, and — crucially — no `children` field at all. Fields the
literal omits (`expanded`, `pattern`, `props`, ...) get their falsy
defaults. -/
def mkHookBox (i : Nat) (hookName hookDescription : String) (sel : JNode) :
    JNode :=
  .mk { id := i, name := hookName, x := sel.x + sel.w + 250, y := sel.y + 0,
        w := 200, h := 60, expanded := false, ty := "HOOK", pattern := "",
        isEventBox := true, props := [], state := [], hooks := [], events := [],
        notes := "", description := hookDescription } none

/-- The deep-cloned form of a connection inside a history snapshot: the JSON
round-trip in `saveState` (line 2006) serializes the node references `from`
and `to` as full structural copies of the nodes. -/
structure SavedConn where
  id : Nat
  fromNode : JNode
  toNode : JNode

/-- A history entry (source lines 2004-2010): deep clones of `files` and
`connections`, and the three selection variables stored as they are (by
reference — they are not part of the JSON round-trip). `selectedConnection`
is not saved at all. -/
structure Snapshot where
  files : List JNode
  connections : List SavedConn
  selectedFile : Option Nat
  selectedChild : Option Nat
  multiSelectedFiles : List Nat

/-- The global mutable state of the script (source lines 204-229), restricted
to the model-relevant variables: the top-level `files` list, `connections`,
the selection variables, connect-mode state, drag state and the undo
`history`. Selections hold node references, modeled by ids;
`selectedConnection` holds a connection object. -/
structure AppState where
  files : List JNode
  connections : List Conn
  selectedFile : Option Nat
  selectedChild : Option Nat
  multiSelectedFiles : List Nat
  selectedConnection : Option Conn
  isConnecting : Bool
  connectionStart : Option Nat
  draggingFile : Option Nat
  isAreaSelecting : Bool
  history : List Snapshot

/-- Source line 229: `maxHistorySize = 30`. -/
def maxHistorySize : Nat := 30

/-- JSON serialization of one live connection for a history snapshot: the
node references `from`/`to` are written out as structural copies. In the
source the referenced objects always exist (a reference keeps its object
alive even when the node has left the tree); the model reads their current
value from the forest, so a connection with a dangling endpoint is dropped
here — theorems about snapshots assume scenes without dangling endpoints. -/
def serializeConn (forest : List JNode) (c : Conn) : Option SavedConn :=
  match findById c.fromId forest, findById c.toId forest with
  | some a, some b => some ⟨c.id, a, b⟩
  | _, _ => none

/-- The snapshot object built by `saveState` (source lines 2004-2010):
deep clones of `files` and `connections` (the JSON round-trip) and the three
selection variables as stored references. -/
def mkSnapshot (st : AppState) : Snapshot :=
  { files := st.files
    connections := st.connections.filterMap (serializeConn st.files)
    selectedFile := st.selectedFile
    selectedChild := st.selectedChild
    multiSelectedFiles := st.multiSelectedFiles }

/-- Source lines 2002-2018: `saveState()` pushes a snapshot of the current
state onto `history` and drops the oldest entry once the length exceeds
`maxHistorySize`. -/
def saveState (st : AppState) : AppState :=
  let h := st.history ++ [mkSnapshot st]
  { st with history := if h.length > maxHistorySize then h.drop 1 else h }

/-- Source lines 1436-1444: find a component whose `name`, `x`, `y` and
`type` all match the saved component's fields. -/
def findComponentByProperties (all : List JNode) (saved : JNode) :
    Option JNode :=
  all.find? fun c =>
    c.name == saved.name && c.x == saved.x && c.y == saved.y &&
      c.ty == saved.ty

/-- The `forEach` of `reconstructConnections` (lines 1447-1462): each saved
connection whose two endpoints can be matched against the flat component list
is rebuilt with the matched nodes as endpoints; the others are dropped with a
warning. -/
def reconstructLoop (all : List JNode) : List SavedConn → List Conn
  | [] => []
  | sc :: rest =>
    match findComponentByProperties all sc.fromNode,
          findComponentByProperties all sc.toNode with
    | some a, some b => ⟨sc.id, a.id, b.id⟩ :: reconstructLoop all rest
    | _, _ => reconstructLoop all rest

/-- Source lines 1419-1465: `reconstructConnections(savedConnections,
loadedFiles)` flattens the loaded forest and rebuilds each saved connection by
field-matching its serialized endpoints. -/
def reconstructConnections (saved : List SavedConn) (loadedFiles : List JNode) :
    List Conn :=
  reconstructLoop (flattenComponents loadedFiles) saved

/-- Source lines 2020-2038: `undo()` pops the most recent history entry,
reinstates its files, rebuilds `connections` by matching the snapshot's
serialized endpoints against the reinstated files, and reinstates the stored
selection references. `selectedConnection` is not touched. No-op on empty
history. -/
def undo (st : AppState) : AppState :=
  match st.history.getLast? with
  | none => st
  | some prev =>
    { st with
      history := st.history.dropLast
      files := prev.files
      connections := reconstructConnections prev.connections prev.files
      selectedFile := prev.selectedFile
      selectedChild := prev.selectedChild
      multiSelectedFiles := prev.multiSelectedFiles }

/-- Source lines 351-362: `resetConnectionMode()` clears the connection start
and leaves connect mode (cursor and button styling are display-only). -/
def resetConnectionModeSt (st : AppState) : AppState :=
  { st with connectionStart := none, isConnecting := false }

/-- Source lines 701-723: the second click of connect mode, on a node other
than the start node. The duplicate check (lines 703-706) inlines the
predicate of `connectionExists`; when no connection joins the pair in either
direction, a new connection `{id: Date.now(), from, to}` is pushed and only
afterwards `saveState()` runs (line 718); finally connect mode is reset.
`now` models `Date.now()`. -/
def commitConnection (startId clickedId now : Nat) (st : AppState) :
    AppState :=
  let existing := connectionExists startId clickedId st.connections
  let st1 :=
    if existing.isNone then
      saveState
        { st with connections := st.connections ++ [⟨now, startId, clickedId⟩] }
    else st
  resetConnectionModeSt st1

/-- Source lines 694-730: the connect-mode branch of the `mousedown` handler.
A hit on a node either records it as the connection start (first click), or —
when the hit node differs from the start — runs the commit logic
(`commitConnection`); hitting the start node again does nothing; a click on
empty space cancels connect mode. -/
def mousedownConnecting (x y : Int) (now : Nat) (st : AppState) : AppState :=
  match findFileAtPosition x y st.connections st.files st.files with
  | some clicked =>
    match st.connectionStart with
    | none => { st with connectionStart := some clicked.id }
    | some s =>
      if clicked.id != s then commitConnection s clicked.id now st else st
  | none => resetConnectionModeSt st

/-- Source lines 732-799: the non-connect-mode branches of the `mousedown`
handler, restricted to their effect on selection and drag state. The two hit
results are passed in: `clickedConnection` stands for
`findConnectionAtPosition(x, y)` (a point-to-segment test over routed
polylines — render geometry the model does not reproduce) and `clickedFile`
for `findFileAtPosition(x, y, files)`. -/
def mousedownSelect (clickedConnection : Option Conn)
    (clickedFile : Option JNode) (ctrlOrMeta : Bool) (st : AppState) :
    AppState :=
  match clickedConnection with
  | some conn =>
    { st with selectedConnection := some conn, selectedFile := none,
              selectedChild := none, multiSelectedFiles := [] }
  | none =>
    match clickedFile with
    | some f =>
      if !ctrlOrMeta then
        if st.multiSelectedFiles.contains f.id then
          { st with draggingFile := some f.id }
        else
          let isTopLevel := st.files.any fun n => n.id == f.id
          let isSelected := st.selectedFile == some f.id
          let st1 :=
            { st with selectedFile := some f.id,
                      selectedChild := if isTopLevel then none else some f.id,
                      multiSelectedFiles := [] }
          if isTopLevel || isSelected then { st1 with draggingFile := some f.id }
          else st1
      else
        if st.multiSelectedFiles.contains f.id then
          { st with multiSelectedFiles := st.multiSelectedFiles.erase f.id }
        else
          { st with multiSelectedFiles := st.multiSelectedFiles ++ [f.id],
                    selectedFile := none, selectedChild := none }
    | none =>
      let st1 :=
        if !ctrlOrMeta then
          { st with selectedFile := none, selectedChild := none,
                    multiSelectedFiles := [] }
        else st
      { st1 with isAreaSelecting := true, selectedConnection := none }

mutual
/-- Source lines 1714-1732, `deepCloneComponent(component)`: an object
literal with the same `name`, position offset by `(+30, +30)`, same `w`/`h`,
`component.children.map(deepCloneComponent)` — which throws a `TypeError`
when `children` is `undefined` (event boxes) — same `expanded`, `type` and
`pattern`, and the arrays `props`/`state`/`hooks`/`events` copied with the
array spread, which creates fresh arrays but keeps the same prop objects
(same `pid`s). The literal has no `isEventBox`/`description` keys, so the
clone gets their falsy defaults. `fresh` numbers the newly allocated objects;
the next unused identity is returned. -/
def deepCloneComponent (fresh : Nat) : JNode → Except String (JNode × Nat)
  | .mk _ none =>
    .error "TypeError: Cannot read properties of undefined (reading map)"
  | .mk c (some cs) =>
    match deepCloneList (fresh + 1) cs with
    | .error e => .error e
    | .ok (cs2, fresh2) =>
      .ok (.mk { id := fresh, name := c.name, x := c.x + 30, y := c.y + 30,
                 w := c.w, h := c.h, expanded := c.expanded, ty := c.ty,
                 pattern := c.pattern, isEventBox := false, props := c.props,
                 state := c.state, hooks := c.hooks, events := c.events,
                 notes := c.notes, description := "" } (some cs2), fresh2)

/-- `component.children.map(child => deepCloneComponent(child))`. -/
def deepCloneList (fresh : Nat) :
    List JNode → Except String (List JNode × Nat)
  | [] => .ok ([], fresh)
  | n :: ns =>
    match deepCloneComponent fresh n with
    | .error e => .error e
    | .ok (n2, fresh2) =>
      match deepCloneList fresh2 ns with
      | .error e => .error e
      | .ok (ns2, fresh3) => .ok (n2 :: ns2, fresh3)
end

/-- Source lines 1712-1751, `duplicateComponent(originalFile, x, y)`:
deep-clone the original, place the clone at `(x+20, y+20)`, then evaluate
`const parentList = findParentOfComponent(originalFile, files)` and branch on
`if (parentList)`. `findParentOfComponent` always returns an object
`{parent, list}` — and objects are truthy — so the branch always executes
`parentList.push(duplicatedFile)`, and that object has no `push` method:
every call that reaches line 1743 throws a `TypeError`. (The helper
`findParentList`, defined directly below at lines 1753-1766, returns the
containing list itself and is evidently what was meant.) -/
def duplicateComponent (original : JNode) (x y : Int) (fresh : Nat)
    (st : AppState) : Except String AppState :=
  match deepCloneComponent fresh original with
  | .error e => .error e
  | .ok (dup, _) =>
    let _duplicatedFile := setPos (x + 20) (y + 20) dup
    let _parentList := findParentOfComponent original.id st.files none
    .error "TypeError: parentList.push is not a function"

/-- Source `updateParentHeight` (lines 1948-1998) recomputes `h` from the
node's rendered JSX content. The computed value depends on canvas text
metrics — the external text-measurement dependency — so the computation is
abstracted as `computeH`; only the `h` field changes. -/
def updateParentHeight (computeH : JNode → Int) : JNode → JNode
  | .mk c och => .mk { c with h := computeH (.mk c och) } och

mutual
/-- Source lines 1770-1783, `repositionChildrenInParent(parentComponent)`:
update the parent's height, then recurse into every child that itself has a
non-empty children list. Only `h` fields change. -/
def repositionChildrenInParent (computeH : JNode → Int) : JNode → JNode
  | .mk c och =>
    let c2 := { c with h := computeH (.mk c och) }
    match och with
    | some cs => .mk c2 (some (repositionList computeH cs))
    | none => .mk c2 none

/-- The `forEach` of `repositionChildrenInParent` over the children. -/
def repositionList (computeH : JNode → Int) : List JNode → List JNode
  | [] => []
  | .mk d dch :: rest =>
    (match dch with
     | some ds =>
       if ds.length > 0 then repositionChildrenInParent computeH (.mk d dch)
       else .mk d dch
     | none => .mk d dch) :: repositionList computeH rest
end

mutual
/-- Rewrite the first node (depth-first) carrying the given id using `f`,
modeling an in-place mutation through a JavaScript node reference; `none`
when no node has the id. -/
def mapByIdL (i : Nat) (f : JNode → JNode) :
    List JNode → Option (List JNode)
  | [] => none
  | n :: ns =>
    match mapByIdT i f n with
    | some n2 => some (n2 :: ns)
    | none =>
      match mapByIdL i f ns with
      | some ns2 => some (n :: ns2)
      | none => none

/-- Tree case of `mapByIdL`. -/
def mapByIdT (i : Nat) (f : JNode → JNode) : JNode → Option JNode
  | .mk c och =>
    if c.id == i then some (f (.mk c och))
    else
      match och with
      | some cs =>
        match mapByIdL i f cs with
        | some cs2 => some (.mk c (some cs2))
        | none => none
      | none => none
end

/-- Total wrapper of `mapByIdL`: the forest is unchanged when the id is
absent. -/
def mapById (i : Nat) (f : JNode → JNode) (l : List JNode) : List JNode :=
  (mapByIdL i f l).getD l

/-- Append a node to another node's children array (models
`dropTarget.children.push(draggingFile)`); the `none` case never runs in
`commitDrop`, which checks for the `children` array first and raises the
`TypeError` itself. -/
def pushChildTotal (child : JNode) : JNode → JNode
  | .mk c (some cs) => .mk c (some (cs ++ [child]))
  | .mk c none => .mk c none

/-- Source lines 909-990: the single-component branch of the `mouseup`
handler (no area selection, a drag in progress, empty multi-selection).
`saveState()` runs first (line 912). Then the drop target is resolved (event
boxes never reparent, lines 940-943). A found target causes removal of the
dragged node from its current container — via `findParentOfComponent` and
`removeFile` on the containing list (the in-place array mutation is modeled
by writing the updated list back into the parent) — followed by
`dropTarget.children.push(draggingFile)` and height recomputation. With no
target, a nested node is promoted to top level and moved to the drop
position; a top-level node is left where the drag moved it. `computeH`
abstracts the text-metric-dependent height computation. -/
def commitDrop (computeH : JNode → Int) (x y offX offY : Int)
    (dragged : JNode) (st0 : AppState) : Except String AppState :=
  let st := saveState st0
  let dropTarget :=
    if dragged.isEventBox then none else findDropTarget x y dragged st.files
  match dropTarget with
  | some dt =>
    let afterRemove : Except String (List JNode × List Conn × Option Conn) :=
      match findParentOfComponent dragged.id st.files none with
      | .found (some p) l =>
        match removeFile dragged.id st.connections st.selectedConnection
            (some l) with
        | .error e => .error e
        | .ok r =>
          let fs := mapById p.id (setChildren r.list) st.files
          let fs := mapById p.id (updateParentHeight computeH) fs
          let fs := mapById p.id (repositionChildrenInParent computeH) fs
          .ok (fs, r.conns, r.selConn)
      | _ =>
        match removeFile dragged.id st.connections st.selectedConnection
            (some st.files) with
        | .error e => .error e
        | .ok r => .ok (r.list, r.conns, r.selConn)
    match afterRemove with
    | .error e => .error e
    | .ok (fs, cs, sc) =>
      match (findById dt.id fs).bind JNode.children with
      | some _ =>
        let fs := mapById dt.id (pushChildTotal dragged) fs
        let fs := mapById dt.id (repositionChildrenInParent computeH) fs
        .ok { st with files := fs, connections := cs,
                      selectedConnection := sc, draggingFile := none }
      | none =>
        .error "TypeError: Cannot read properties of undefined (reading push)"
  | none =>
    let isTopLevel := st.files.any fun n => n.id == dragged.id
    if isTopLevel then .ok { st with draggingFile := none }
    else
      match findParentOfComponent dragged.id st.files none with
      | .found (some p) l =>
        match removeFile dragged.id st.connections st.selectedConnection
            (some l) with
        | .error e => .error e
        | .ok r =>
          let fs := mapById p.id (setChildren r.list) st.files
          let fs := fs ++ [dragged]
          let fs := mapById p.id (updateParentHeight computeH) fs
          let fs := mapById p.id (repositionChildrenInParent computeH) fs
          let fs := mapById dragged.id (setPos (x - offX) (y - offY)) fs
          .ok { st with files := fs, connections := r.conns,
                        selectedConnection := r.selConn, draggingFile := none }
      | _ => .ok { st with draggingFile := none }

/-- Source lines 1508-1563, the Delete/Backspace branch for a single selected
component (`selectedConnection` empty, `multiSelectedFiles` empty):
`saveState()`, then `removeFile(selectedFile, files)`, then
`clearSelection()`. -/
def deleteSelectedComponent (st : AppState) : Except String AppState :=
  match st.selectedFile with
  | none => .ok st
  | some sid =>
    let st1 := saveState st
    match removeFile sid st1.connections st1.selectedConnection
        (some st1.files) with
    | .error e => .error e
    | .ok r =>
      .ok { st1 with files := r.list, connections := r.conns,
                     selectedConnection := r.selConn, selectedFile := none,
                     selectedChild := none, multiSelectedFiles := [] }

/-- A sample top-level component at the origin (box from (0,0) to (160,40)). -/
def sampleA : JNode := createNewComponent 1 "A" 0 0

/-- A sample top-level component to the right (box from (300,0) to (460,40)). -/
def sampleB : JNode := createNewComponent 2 "B" 300 0

/-- A sample nested component (box from (10,10) to (170,50)). -/
def sampleC : JNode := createNewComponent 3 "C" 10 10

/-- A sample parent holding `sampleC` as its only child. -/
def sampleP : JNode := setChildren [sampleC] (createNewComponent 4 "P" 0 0)

/-- A sample event box (no `children` field), as created next to `sampleA`. -/
def sampleHook : JNode := mkHookBox 9 "useX" "evt" sampleA

/-- An app state with the given files and connections and everything else in
its initial configuration (source lines 204-229). -/
def baseState (fs : List JNode) (cs : List Conn) : AppState :=
  { files := fs, connections := cs, selectedFile := none, selectedChild := none,
    multiSelectedFiles := [], selectedConnection := none, isConnecting := false,
    connectionStart := none, draggingFile := none, isAreaSelecting := false,
    history := [] }

/-- Scene with the two disjoint top-level components `sampleA`, `sampleB`. -/
def stPair : AppState := baseState [sampleA, sampleB] []

/-- Scene for the duplication claim: a single component. -/
def stDup : AppState := baseState [sampleA] []

/-- Scene for the undo round-trip: two components, one connection between
them, the first component selected. -/
def stDel : AppState :=
  { baseState [sampleA, sampleB] [⟨7, 1, 2⟩] with selectedFile := some 1 }

/-- Scene for the selection claim: two components and one connection. -/
def stSel : AppState := baseState [sampleA, sampleB] [⟨5, 1, 2⟩]

/-- First pointer-down of the selection counterexample: the connection is hit
and becomes selected. -/
def stSelAfterConnClick : AppState :=
  mousedownSelect (some ⟨5, 1, 2⟩) none false stSel

/-- Second pointer-down of the selection counterexample: plain click on the
node `sampleA`. -/
def stSelAfterNodeClick : AppState :=
  mousedownSelect none (some sampleA) false stSelAfterConnClick

/-- The state produced by the drag-commit witness: `sampleA` dragged onto
`sampleB` (pointer at (350,20), inside `sampleB`). -/
def stDropResult : AppState :=
  ((commitDrop (fun _ => 0) 350 20 0 0 sampleA stPair).toOption).getD stPair

/-- The result of removing `sampleP` (with nested child `sampleC`) while a
connection from `sampleC` to `sampleB` exists. -/
def sampleRemoveOut : RemoveOut :=
  ((removeFile 4 [⟨70, 3, 2⟩] none (some [sampleP, sampleB])).toOption).getD
    ⟨[], [], none, false⟩

/-- The state after deleting the selected component of `stDel`. -/
def stDelResult : AppState :=
  ((deleteSelectedComponent stDel).toOption).getD stDel

/-- The multiset of all node ids of a forest: "every node appears in exactly
one list" is expressed through this multiset (each id exactly once). -/
def idsM (l : List JNode) : Multiset Nat := (forestIds l : Multiset Nat)

/-- The multiset of all node ids of one subtree. -/
def subM (t : JNode) : Multiset Nat := (subtreeIds t : Multiset Nat)

theorem idsM_nil : idsM [] = 0 := rfl

theorem idsM_cons (n : JNode) (l : List JNode) :
    idsM (n :: l) = subM n + idsM l := by
  simp only [idsM, subM, forestIds, ← Multiset.coe_add]

theorem subM_mk_none (c : NodeCore) : subM (.mk c none) = {c.id} := rfl

theorem subM_mk_some (c : NodeCore) (cs : List JNode) :
    subM (.mk c (some cs)) = c.id ::ₘ idsM cs := by
  simp only [subM, idsM, subtreeIds, ← Multiset.cons_coe]

theorem forestIds_append (l m : List JNode) :
    forestIds (l ++ m) = forestIds l ++ forestIds m := by
  induction l with
  | nil => rfl
  | cons n ns ih => simp [forestIds, ih]

theorem idsM_append (l m : List JNode) : idsM (l ++ m) = idsM l + idsM m := by
  simp only [idsM, forestIds_append, ← Multiset.coe_add]

theorem flattenTree_mk_some (c : NodeCore) (cs : List JNode) :
    flattenTree (.mk c (some cs)) = .mk c (some cs) :: flattenComponents cs := by
  cases cs with
  | nil => rfl
  | cons a t => simp [flattenTree]

theorem self_mem_flattenTree (t : JNode) : t ∈ flattenTree t := by
  cases t with
  | mk c och =>
    cases och with
    | none => exact List.mem_singleton.mpr rfl
    | some cs => rw [flattenTree_mk_some]; exact List.mem_cons_self _ _

theorem mem_flatten_of_mem {n : JNode} {l : List JNode} (h : n ∈ l) :
    n ∈ flattenComponents l := by
  induction l with
  | nil => cases h
  | cons a t ih =>
    rcases List.mem_cons.mp h with rfl | h2
    · exact List.mem_append_left _ (self_mem_flattenTree n)
    · exact List.mem_append_right _ (ih h2)

mutual
theorem subtreeIds_eq_map :
    ∀ t : JNode, subtreeIds t = (flattenTree t).map JNode.id
  | .mk _ none => rfl
  | .mk c (some cs) => by
    rw [flattenTree_mk_some, subtreeIds, List.map_cons, forestIds_eq_map cs]
    rfl

theorem forestIds_eq_map :
    ∀ l : List JNode, forestIds l = (flattenComponents l).map JNode.id
  | [] => rfl
  | n :: ns => by
    rw [forestIds, flattenComponents, List.map_append, subtreeIds_eq_map n,
      forestIds_eq_map ns]
end

mutual
theorem mem_flattenTree_trans :
    ∀ (t n m : JNode), n ∈ flattenTree t → m ∈ flattenTree n → m ∈ flattenTree t
  | .mk c none, n, m, hn, hm => by
    rw [show flattenTree (.mk c none) = [.mk c none] from rfl] at hn ⊢
    rcases List.mem_singleton.mp hn with rfl
    exact hm
  | .mk c (some cs), n, m, hn, hm => by
    rw [flattenTree_mk_some] at hn ⊢
    rcases List.mem_cons.mp hn with rfl | hn2
    · rwa [flattenTree_mk_some] at hm
    · exact List.mem_cons_of_mem _ (mem_flattenList_trans cs n m hn2 hm)

theorem mem_flattenList_trans :
    ∀ (l : List JNode) (n m : JNode),
      n ∈ flattenComponents l → m ∈ flattenTree n → m ∈ flattenComponents l
  | a :: tl, n, m, hn, hm => by
    rw [flattenComponents] at hn ⊢
    rcases List.mem_append.mp hn with hn1 | hn2
    · exact List.mem_append_left _ (mem_flattenTree_trans a n m hn1 hm)
    · exact List.mem_append_right _ (mem_flattenList_trans tl n m hn2 hm)
end

mutual
theorem findByIdTree_spec (i : Nat) :
    ∀ (t n : JNode), findByIdTree i t = some n → n ∈ flattenTree t ∧ n.id = i
  | .mk c none, n, h => by
    rw [findByIdTree] at h
    by_cases hc : c.id = i
    · simp only [hc, beq_self_eq_true, if_true, Option.some.injEq] at h
      subst h
      exact ⟨self_mem_flattenTree _, hc⟩
    · simp [(by simpa using hc : (c.id == i) = false)] at h
  | .mk c (some cs), n, h => by
    rw [findByIdTree] at h
    by_cases hc : c.id = i
    · simp only [hc, beq_self_eq_true, if_true, Option.some.injEq] at h
      subst h
      exact ⟨self_mem_flattenTree _, hc⟩
    · simp only [(by simpa using hc : (c.id == i) = false), Bool.false_eq_true,
        if_false] at h
      have := findById_spec i cs n h
      exact ⟨by
        rw [flattenTree_mk_some]
        exact List.mem_cons_of_mem _ this.1, this.2⟩

theorem findById_spec (i : Nat) :
    ∀ (l : List JNode) (n : JNode),
      findById i l = some n → n ∈ flattenComponents l ∧ n.id = i
  | a :: tl, n, h => by
    rw [findById] at h
    rcases ht : findByIdTree i a with _ | m
    · rw [ht] at h
      have := findById_spec i tl n h
      exact ⟨by rw [flattenComponents]; exact List.mem_append_right _ this.1,
        this.2⟩
    · rw [ht] at h
      cases h
      have := findByIdTree_spec i a n ht
      exact ⟨by rw [flattenComponents]; exact List.mem_append_left _ this.1,
        this.2⟩
end

mutual
theorem findByIdTree_isSome (i : Nat) :
    ∀ t : JNode, i ∈ subtreeIds t → (findByIdTree i t).isSome
  | .mk c none, h => by
    rw [subtreeIds] at h
    rcases List.mem_singleton.mp h with rfl
    simp [findByIdTree]
  | .mk c (some cs), h => by
    rw [subtreeIds] at h
    rcases List.mem_cons.mp h with rfl | h2
    · simp [findByIdTree]
    · rw [findByIdTree]
      by_cases hc : c.id = i
      · simp [hc]
      · simp only [(by simpa using hc : (c.id == i) = false), Bool.false_eq_true,
          if_false]
        exact findById_isSome i cs h2

theorem findById_isSome (i : Nat) :
    ∀ l : List JNode, i ∈ forestIds l → (findById i l).isSome
  | a :: tl, h => by
    rw [forestIds] at h
    rw [findById]
    rcases List.mem_append.mp h with h1 | h2
    · have := findByIdTree_isSome i a h1
      rcases hm : findByIdTree i a with _ | m
      · rw [hm] at this; cases this
      · simp
    · rcases hm : findByIdTree i a with _ | m
      · exact findById_isSome i tl h2
      · simp
end

theorem flatten_id_inj {l : List JNode} (hd : (forestIds l).Nodup)
    {n m : JNode} (hn : n ∈ flattenComponents l) (hm : m ∈ flattenComponents l)
    (h : n.id = m.id) : n = m := by
  rw [forestIds_eq_map] at hd
  exact List.inj_on_of_nodup_map hd hn hm h

theorem findById_of_mem {l : List JNode} (hd : (forestIds l).Nodup)
    {n : JNode} (hn : n ∈ flattenComponents l) : findById n.id l = some n := by
  have hmem : n.id ∈ forestIds l := by
    rw [forestIds_eq_map]
    exact List.mem_map_of_mem _ hn
  have hsome := findById_isSome n.id l hmem
  rcases hm : findById n.id l with _ | m
  · rw [hm] at hsome; cases hsome
  · have := findById_spec n.id l m hm
    rw [flatten_id_inj hd this.1 hn this.2]

mutual
theorem mem_subtreeIds_iff (i : Nat) :
    ∀ t : JNode, i ∈ subtreeIds t ↔ (i = t.id ∨ isDescendantOf i t = true)
  | .mk c none => by
    rw [subtreeIds, isDescendantOf]
    simp [JNode.id, JNode.core]
  | .mk c (some cs) => by
    rw [subtreeIds, isDescendantOf]
    simp only [List.mem_cons, mem_forestIds_iff i cs]
    exact Iff.rfl

theorem mem_forestIds_iff (i : Nat) :
    ∀ l : List JNode, i ∈ forestIds l ↔ isDescendantOfList i l = true
  | [] => by simp [forestIds, isDescendantOfList]
  | c :: cs => by
    rw [forestIds, isDescendantOfList]
    simp only [List.mem_append, mem_subtreeIds_iff i c, mem_forestIds_iff i cs,
      Bool.or_eq_true, beq_iff_eq]
    constructor
    · rintro ((rfl | h) | h)
      · exact Or.inl (Or.inl rfl)
      · exact Or.inl (Or.inr h)
      · exact Or.inr h
    · rintro ((rfl | h) | h)
      · exact Or.inl (Or.inl rfl)
      · exact Or.inl (Or.inr h)
      · exact Or.inr h
end

/-- The update of the global `selectedConnection` performed by a successful
`removeFile` (lines 2137-2140). -/
def connSelUpdate (tid : Nat) (sc : Option Conn) : Option Conn :=
  match sc with
  | some s => if s.fromId == tid || s.toId == tid then none else some s
  | none => none

theorem findIdx_erase_idsM (tid : Nat) :
    ∀ (l : List JNode) (i : Nat),
      l.findIdx? (fun n => n.id == tid) = some i →
      ∃ sub, sub ∈ l ∧ sub.id = tid ∧
        idsM l = subM sub + idsM (l.eraseIdx i) := by
  intro l
  induction l with
  | nil => intro i h; simp [List.findIdx?] at h
  | cons a t ih =>
    intro i h
    rw [List.findIdx?_cons] at h
    by_cases ha : a.id = tid
    · simp only [ha, beq_self_eq_true, if_true, Option.some.injEq] at h
      subst h
      exact ⟨a, List.mem_cons_self _ _, ha, by
        simp [List.eraseIdx_cons_zero, idsM_cons]⟩
    · simp only [(by simpa using ha : (a.id == tid) = false), Bool.false_eq_true,
        if_false, List.findIdx?_start_succ, Option.map_eq_some'] at h
      rcases h with ⟨j, hj, rfl⟩
      rcases ih j hj with ⟨sub, hmem, hid, heq⟩
      refine ⟨sub, List.mem_cons_of_mem _ hmem, hid, ?_⟩
      rw [List.eraseIdx_cons_succ, idsM_cons, idsM_cons, heq, add_left_comm]

theorem removeHere_spec (tid : Nat) (conns : List Conn) (sc : Option Conn)
    (l : List JNode) (i : Nat)
    (h : l.findIdx? (fun n => n.id == tid) = some i) :
    ∃ sub, sub ∈ flattenComponents l ∧ sub.id = tid ∧
      idsM l = subM sub + idsM (removeHere tid conns sc l i).list := by
  rcases findIdx_erase_idsM tid l i h with ⟨sub, hmem, hid, heq⟩
  exact ⟨sub, mem_flatten_of_mem hmem, hid, heq⟩

mutual
theorem removeFileChild_spec (tid : Nat) (conns : List Conn)
    (sc : Option Conn) :
    ∀ (t : JNode) (r : RemoveOut),
      removeFileChild tid conns sc t = .ok r → r.found = true →
      (∃ cs, t.children = some cs ∧
        ∃ sub, sub ∈ flattenComponents cs ∧ sub.id = tid ∧
          idsM cs = subM sub + idsM r.list) ∧
      r.conns = conns.filter
        (fun c => c.fromId != tid && c.toId != tid) ∧
      r.selConn = connSelUpdate tid sc
  | .mk c none, r, h, _ => by rw [removeFileChild] at h; cases h
  | .mk c (some cs), r, h, hf => by
    rw [removeFileChild] at h
    rcases hidx : cs.findIdx? (fun n => n.id == tid) with _ | i
    · rw [hidx] at h
      rcases removeFileScan_spec tid conns sc cs r h hf with ⟨h1, h2, h3⟩
      exact ⟨⟨cs, rfl, h1⟩, h2, h3⟩
    · rw [hidx] at h
      cases h
      refine ⟨⟨cs, rfl, ?_⟩, rfl, rfl⟩
      exact removeHere_spec tid conns sc cs i hidx

theorem removeFileScan_spec (tid : Nat) (conns : List Conn)
    (sc : Option Conn) :
    ∀ (l : List JNode) (r : RemoveOut),
      removeFileScan tid conns sc l = .ok r → r.found = true →
      (∃ sub, sub ∈ flattenComponents l ∧ sub.id = tid ∧
        idsM l = subM sub + idsM r.list) ∧
      r.conns = conns.filter
        (fun c => c.fromId != tid && c.toId != tid) ∧
      r.selConn = connSelUpdate tid sc
  | [], r, h, hf => by
    rw [removeFileScan] at h
    cases h
    cases hf
  | f :: rest, r, h, hf => by
    rw [removeFileScan] at h
    rcases hc : removeFileChild tid conns sc f with e | r1
    · rw [hc] at h; cases h
    · rw [hc] at h
      dsimp only at h
      by_cases hr1 : r1.found
      · rw [if_pos hr1] at h
        cases h
        rcases removeFileChild_spec tid conns sc f r1 hc hr1 with
          ⟨⟨cs, hch, sub, hmem, hid, heq⟩, h2, h3⟩
        refine ⟨⟨sub, ?_, hid, ?_⟩, h2, h3⟩
        · rcases f with ⟨fc, och⟩
          cases hch
          rw [flattenComponents, flattenTree_mk_some]
          exact List.mem_append_left _ (List.mem_cons_of_mem _ hmem)
        · rcases f with ⟨fc, och⟩
          cases hch
          rw [idsM_cons, idsM_cons,
            show setChildren r1.list (JNode.mk fc (some cs)) =
              JNode.mk fc (some r1.list) from rfl,
            subM_mk_some, subM_mk_some, heq]
          simp only [← Multiset.singleton_add]
          abel
      · rw [if_neg hr1] at h
        rcases h2 : removeFileScan tid conns sc rest with e | r2
        · rw [h2] at h; cases h
        · rw [h2] at h
          cases h
          rcases removeFileScan_spec tid conns sc rest r2 h2 hf with
            ⟨⟨sub, hmem, hid, heq⟩, hc2, hc3⟩
          refine ⟨⟨sub, ?_, hid, ?_⟩, hc2, hc3⟩
          · rw [flattenComponents]
            exact List.mem_append_right _ hmem
          · rw [idsM_cons, idsM_cons, heq, add_left_comm]
end

theorem removeFile_found_spec (tid : Nat) (conns : List Conn)
    (sc : Option Conn) (l : List JNode) (r : RemoveOut)
    (h : removeFile tid conns sc (some l) = .ok r) (hf : r.found = true) :
    (∃ sub, sub ∈ flattenComponents l ∧ sub.id = tid ∧
      idsM l = subM sub + idsM r.list) ∧
    r.conns = conns.filter (fun c => c.fromId != tid && c.toId != tid) ∧
    r.selConn = connSelUpdate tid sc := by
  rw [removeFile] at h
  rcases hidx : l.findIdx? (fun n => n.id == tid) with _ | i
  · rw [hidx] at h
    exact removeFileScan_spec tid conns sc l r h hf
  · rw [hidx] at h
    cases h
    exact ⟨removeHere_spec tid conns sc l i hidx, rfl, rfl⟩

theorem findDropTargetLevel_spec (x y : Int) (dragged : JNode) :
    ∀ (l : List JNode) (t : JNode),
      findDropTargetLevel x y dragged l = some t →
      t.id ≠ dragged.id ∧ isDescendantOf t.id dragged = false ∧
        t.isEventBox = false := by
  intro l
  induction l with
  | nil => intro t h; cases h
  | cons f rest ih =>
    intro t h
    rw [findDropTargetLevel] at h
    by_cases hg : (f.id != dragged.id && !f.isEventBox && inBox x y f &&
        !isDescendantOf f.id dragged) = true
    · rw [if_pos hg] at h
      cases h
      simp only [Bool.and_eq_true, bne_iff_ne, ne_eq, Bool.not_eq_true'] at hg
      exact ⟨hg.1.1.1, hg.2, hg.1.1.2⟩
    · rw [if_neg hg] at h
      exact ih t h

mutual
theorem findDropTargetChild_spec (x y : Int) (dragged : JNode) :
    ∀ (n t : JNode), findDropTargetChild x y dragged n = some t →
      t.id ≠ dragged.id ∧ isDescendantOf t.id dragged = false ∧
        t.isEventBox = false
  | .mk _ none, t, h => by rw [findDropTargetChild] at h; cases h
  | .mk c (some cs), t, h => by
    rw [findDropTargetChild] at h
    by_cases hg : (c.id != dragged.id && cs.length > 0 && !c.isEventBox) = true
    · rw [if_pos hg] at h
      rcases hn : findDropTargetNested x y dragged cs with _ | t2
      · rw [hn] at h
        exact findDropTargetLevel_spec x y dragged cs t h
      · rw [hn] at h
        cases h
        exact findDropTargetNested_spec x y dragged cs t hn
    · rw [if_neg hg] at h
      cases h

theorem findDropTargetNested_spec (x y : Int) (dragged : JNode) :
    ∀ (l : List JNode) (t : JNode),
      findDropTargetNested x y dragged l = some t →
      t.id ≠ dragged.id ∧ isDescendantOf t.id dragged = false ∧
        t.isEventBox = false
  | f :: rest, t, h => by
    rw [findDropTargetNested] at h
    rcases hc : findDropTargetChild x y dragged f with _ | t2
    · rw [hc] at h
      exact findDropTargetNested_spec x y dragged rest t h
    · rw [hc] at h
      cases h
      exact findDropTargetChild_spec x y dragged f t hc
end

theorem skipsHiddenEventBox_of_not_eventBox (conns : List Conn)
    (root : List JNode) (f : JNode) (h : f.isEventBox = false) :
    skipsHiddenEventBox conns root f = false := by
  rw [skipsHiddenEventBox, h]
  rfl

theorem findFileAtPosition_append_last (x y : Int) (conns : List Conn)
    (root : List JNode) (xs : List JNode) (P : JNode) :
    findFileAtPosition x y conns root (xs ++ [P]) =
      (findFileAtPositionOne x y conns root P).or
        (findFileAtPosition x y conns root xs) := by
  induction xs with
  | nil =>
    rw [List.nil_append, findFileAtPosition, findFileAtPosition]
    rcases findFileAtPositionOne x y conns root P with _ | n <;> rfl
  | cons a xs ih =>
    rw [List.cons_append, findFileAtPosition, ih]
    rcases findFileAtPositionOne x y conns root P with _ | n
    · rw [Option.none_or, Option.none_or, findFileAtPosition]
    · rfl

mutual
theorem findFileAtPositionOne_mem (x y : Int) (conns : List Conn)
    (root : List JNode) :
    ∀ (t n : JNode), findFileAtPositionOne x y conns root t = some n →
      n ∈ flattenTree t
  | .mk c none, n, h => by
    rw [findFileAtPositionOne] at h
    by_cases hs : skipsHiddenEventBox conns root (.mk c none) = true
    · rw [if_pos hs] at h
      cases h
    · rw [if_neg hs] at h
      by_cases hb : inBox x y (.mk c none) = true
      · rw [if_pos hb] at h
        cases h
        exact self_mem_flattenTree _
      · rw [if_neg hb] at h
        cases h
  | .mk c (some cs), n, h => by
    rw [findFileAtPositionOne] at h
    by_cases hs : skipsHiddenEventBox conns root (.mk c (some cs)) = true
    · rw [if_pos hs] at h
      cases h
    · rw [if_neg hs] at h
      by_cases hl : cs.length > 0
      · rw [if_pos hl] at h
        rcases hf : findFileAtPosition x y conns root cs with _ | m
        · rw [hf] at h
          by_cases hb : inBox x y (.mk c (some cs)) = true
          · rw [if_pos hb] at h
            cases h
            exact self_mem_flattenTree _
          · rw [if_neg hb] at h
            cases h
        · rw [hf] at h
          cases h
          rw [flattenTree_mk_some]
          exact List.mem_cons_of_mem _
            (findFileAtPosition_mem x y conns root cs n hf)
      · rw [if_neg hl] at h
        by_cases hb : inBox x y (.mk c (some cs)) = true
        · rw [if_pos hb] at h
          cases h
          exact self_mem_flattenTree _
        · rw [if_neg hb] at h
          cases h

theorem findFileAtPosition_mem (x y : Int) (conns : List Conn)
    (root : List JNode) :
    ∀ (l : List JNode) (n : JNode),
      findFileAtPosition x y conns root l = some n → n ∈ flattenComponents l
  | f :: rest, n, h => by
    rw [findFileAtPosition] at h
    rcases hr : findFileAtPosition x y conns root rest with _ | m
    · rw [hr] at h
      rw [flattenComponents]
      exact List.mem_append_left _
        (findFileAtPositionOne_mem x y conns root f n h)
    · rw [hr] at h
      cases h
      rw [flattenComponents]
      exact List.mem_append_right _
        (findFileAtPosition_mem x y conns root rest n hr)
end

/-- C7: the hit test searches children before the node itself and iterates
each list last-to-first. First part: whenever the children search of the last
list element succeeds with a node N, the search of the whole list returns N —
the parent's own box is never consulted and every earlier (visually lower)
sibling loses the tie — and N is never the parent itself. Second part: a
point inside the box of a childless, non-event node placed last in a list is
resolved to that node, which combined with the first part gives the claim's
consequence: a point inside both a nested node's box and its ancestor's box
resolves to the nested node. -/
theorem C7_hit_test_priority :
    ∀ (x y : Int) (conns : List Conn) (root : List JNode),
      (∀ (xs : List JNode) (c : NodeCore) (cs : List JNode) (N : JNode),
        c.isEventBox = false →
        findFileAtPosition x y conns root cs = some N →
        c.id ∉ forestIds cs →
        findFileAtPosition x y conns root (xs ++ [.mk c (some cs)]) = some N ∧
          N.id ≠ (JNode.mk c (some cs)).id) ∧
      (∀ (d : NodeCore) (cs0 : List JNode),
        d.isEventBox = false →
        inBox x y (.mk d (some [])) = true →
        findFileAtPosition x y conns root (cs0 ++ [.mk d (some [])]) =
          some (.mk d (some []))) := by
  intro x y conns root
  constructor
  · intro xs c cs N hev hN hid
    have hsk : skipsHiddenEventBox conns root (.mk c (some cs)) = false :=
      skipsHiddenEventBox_of_not_eventBox conns root _ hev
    have hone : findFileAtPositionOne x y conns root (.mk c (some cs)) =
        some N := by
      rw [findFileAtPositionOne, hsk]
      cases cs with
      | nil =>
        rw [show findFileAtPosition x y conns root [] = none from rfl] at hN
        cases hN
      | cons a t =>
        rw [if_neg (by simp)]
        rw [if_pos (by simp), hN]
    constructor
    · rw [findFileAtPosition_append_last, hone]
      rfl
    · have hmem := findFileAtPosition_mem x y conns root cs N hN
      have : N.id ∈ forestIds cs := by
        rw [forestIds_eq_map]
        exact List.mem_map_of_mem _ hmem
      intro he
      rw [he] at this
      exact hid this
  · intro d cs0 hev hbox
    have hsk : skipsHiddenEventBox conns root (.mk d (some [])) = false :=
      skipsHiddenEventBox_of_not_eventBox conns root _ hev
    have hone : findFileAtPositionOne x y conns root (.mk d (some [])) =
        some (.mk d (some [])) := by
      rw [findFileAtPositionOne, hsk]
      rw [if_neg (by simp)]
      rw [if_neg (by simp), if_pos hbox]
    rw [findFileAtPosition_append_last, hone]
    rfl

/-- Witness for C7: the point (15,15) lies inside both the nested `sampleC`
and its parent `sampleP`; the hit test resolves `sampleC`, not `sampleP`. -/
theorem C7_hit_test_witness :
    findFileAtPosition 15 15 [] [sampleP]
        ([] ++ [JNode.mk sampleP.core (some [sampleC])]) = some sampleC ∧
      sampleC.id ≠ (JNode.mk sampleP.core (some [sampleC])).id :=
  (C7_hit_test_priority 15 15 [] [sampleP]).1 [] sampleP.core [sampleC]
    sampleC rfl rfl (by decide)

theorem Conn.eta (c : Conn) : (⟨c.id, c.fromId, c.toId⟩ : Conn) = c := rfl

theorem saveState_history_getLast (st : AppState) :
    (saveState st).history.getLast? = some (mkSnapshot st) := by
  rw [saveState]
  show (if (st.history ++ [mkSnapshot st]).length > maxHistorySize
      then (st.history ++ [mkSnapshot st]).drop 1
      else st.history ++ [mkSnapshot st]).getLast? = some (mkSnapshot st)
  by_cases hl : (st.history ++ [mkSnapshot st]).length > maxHistorySize
  · rw [if_pos hl]
    rcases hh : st.history with _ | ⟨b, t⟩
    · rw [hh] at hl
      simp [maxHistorySize] at hl
    · simp only [List.cons_append, List.drop_succ_cons, List.drop_zero]
      exact List.getLast?_concat _
  · rw [if_neg hl]
    exact List.getLast?_concat _

theorem reconstruct_filterMap_self (files : List JNode) :
    ∀ conns : List Conn,
      (∀ c ∈ conns, ∃ nf nt, findById c.fromId files = some nf ∧
        findById c.toId files = some nt ∧
        findComponentByProperties (flattenComponents files) nf = some nf ∧
        findComponentByProperties (flattenComponents files) nt = some nt) →
      reconstructConnections (conns.filterMap (serializeConn files)) files =
        conns := by
  intro conns
  induction conns with
  | nil => intro _; rfl
  | cons c rest ih =>
    intro h
    rcases h c (List.mem_cons_self _ _) with ⟨nf, nt, hf, ht, hcf, hct⟩
    have hser : serializeConn files c = some ⟨c.id, nf, nt⟩ := by
      rw [serializeConn, hf, ht]
    rw [List.filterMap_cons, hser, reconstructConnections, reconstructLoop]
    simp only [hcf, hct]
    have hrest := ih fun c2 hc2 => h c2 (List.mem_cons_of_mem _ hc2)
    rw [reconstructConnections] at hrest
    rw [hrest]
    have hhead : Conn.mk c.id nf.id nt.id = c := by
      rw [(findById_spec _ _ _ hf).2, (findById_spec _ _ _ ht).2]
    rw [hhead]

mutual
theorem removeFileChild_selConn_none (tid : Nat) (conns : List Conn) :
    ∀ (t : JNode) (r : RemoveOut),
      removeFileChild tid conns none t = .ok r → r.selConn = none
  | .mk _ none, r, h => by rw [removeFileChild] at h; cases h
  | .mk c (some cs), r, h => by
    rw [removeFileChild] at h
    rcases hidx : cs.findIdx? (fun n => n.id == tid) with _ | i
    · rw [hidx] at h
      exact removeFileScan_selConn_none tid conns cs r h
    · rw [hidx] at h
      cases h
      rfl

theorem removeFileScan_selConn_none (tid : Nat) (conns : List Conn) :
    ∀ (l : List JNode) (r : RemoveOut),
      removeFileScan tid conns none l = .ok r → r.selConn = none
  | [], r, h => by
    rw [removeFileScan] at h
    cases h
    rfl
  | f :: rest, r, h => by
    rw [removeFileScan] at h
    rcases hc : removeFileChild tid conns none f with e | r1
    · rw [hc] at h; cases h
    · rw [hc] at h
      dsimp only at h
      by_cases hr1 : r1.found
      · rw [if_pos hr1] at h
        cases h
        exact removeFileChild_selConn_none tid conns f r1 hc
      · rw [if_neg hr1] at h
        rcases h2 : removeFileScan tid conns none rest with e | r2
        · rw [h2] at h; cases h
        · rw [h2] at h
          cases h
          exact removeFileScan_selConn_none tid conns rest r2 h2
end

theorem removeFile_selConn_none (tid : Nat) (conns : List Conn)
    (l : List JNode) (r : RemoveOut)
    (h : removeFile tid conns none (some l) = .ok r) : r.selConn = none := by
  rw [removeFile] at h
  rcases hidx : l.findIdx? (fun n => n.id == tid) with _ | i
  · rw [hidx] at h
    exact removeFileScan_selConn_none tid conns l r h
  · rw [hidx] at h
    cases h
    rfl

theorem undo_fields (st3 : AppState) (prev : Snapshot)
    (h : st3.history.getLast? = some prev) :
    (undo st3).files = prev.files ∧
    (undo st3).connections =
      reconstructConnections prev.connections prev.files ∧
    (undo st3).selectedFile = prev.selectedFile ∧
    (undo st3).selectedChild = prev.selectedChild ∧
    (undo st3).multiSelectedFiles = prev.multiSelectedFiles ∧
    (undo st3).selectedConnection = st3.selectedConnection := by
  rw [undo, h]
  exact ⟨rfl, rfl, rfl, rfl, rfl, rfl⟩

mutual
theorem fpocChild_spec (tid : Nat) :
    ∀ (t : JNode) (pOpt : Option JNode) (l : List JNode),
      fpocChild tid t = .found pOpt l →
      (∃ n ∈ l, n.id = tid) ∧
      ∃ p cs, pOpt = some p ∧ p.children = some cs ∧ l = cs ∧
        p ∈ flattenTree t
  | .mk _ none, pOpt, l, h => by rw [fpocChild] at h; cases h
  | .mk c (some cs), pOpt, l, h => by
    rw [fpocChild] at h
    by_cases hl : cs.length > 0
    · rw [if_pos hl] at h
      rcases fpocLoop_spec tid cs cs (some (.mk c (some cs)))
          (fun n hn => hn) pOpt l h with ⟨hex, hcase⟩
      refine ⟨hex, ?_⟩
      rcases hcase with ⟨hp, hl2⟩ | ⟨p, cs2, hp, hch, hleq, hmem⟩
      · exact ⟨.mk c (some cs), cs, hp, rfl, hl2, self_mem_flattenTree _⟩
      · refine ⟨p, cs2, hp, hch, hleq, ?_⟩
        rw [flattenTree_mk_some]
        exact List.mem_cons_of_mem _ hmem
    · rw [if_neg hl] at h
      cases h

theorem fpocLoop_spec (tid : Nat) :
    ∀ (iter searchList : List JNode) (parent : Option JNode),
      (∀ n ∈ iter, n ∈ searchList) →
      ∀ (pOpt : Option JNode) (l : List JNode),
        fpocLoop tid searchList parent iter = .found pOpt l →
        (∃ n ∈ l, n.id = tid) ∧
        ((pOpt = parent ∧ l = searchList) ∨
          ∃ p cs, pOpt = some p ∧ p.children = some cs ∧ l = cs ∧
            p ∈ flattenComponents iter)
  | [], _, _, _, pOpt, l, h => by rw [fpocLoop] at h; cases h
  | f :: rest, searchList, parent, hsub, pOpt, l, h => by
    rw [fpocLoop] at h
    by_cases hid : (f.id == tid) = true
    · rw [if_pos hid] at h
      cases h
      exact ⟨⟨f, hsub f (List.mem_cons_self _ _), by simpa using hid⟩,
        Or.inl ⟨rfl, rfl⟩⟩
    · rw [if_neg hid] at h
      cases hc : fpocChild tid f with
      | found p2 l2 =>
        rw [hc] at h
        cases h
        rcases fpocChild_spec tid f pOpt l hc with
          ⟨hex, p, cs, hp, hch, hleq, hmem⟩
        refine ⟨hex, Or.inr ⟨p, cs, hp, hch, hleq, ?_⟩⟩
        rw [flattenComponents]
        exact List.mem_append_left _ hmem
      | notFound =>
        rw [hc] at h
        rcases fpocLoop_spec tid rest searchList parent
            (fun n hn => hsub n (List.mem_cons_of_mem _ hn)) pOpt l h with
          ⟨hex, hcase⟩
        refine ⟨hex, ?_⟩
        rcases hcase with hleft | ⟨p, cs, hp, hch, hleq, hmem⟩
        · exact Or.inl hleft
        · refine Or.inr ⟨p, cs, hp, hch, hleq, ?_⟩
          rw [flattenComponents]
          exact List.mem_append_right _ hmem
end

mutual
theorem fpocChild_notFound (tid : Nat) :
    ∀ (t : JNode), fpocChild tid t = .notFound →
      ∀ cs, t.children = some cs → tid ∉ forestIds cs
  | .mk _ none, _, cs, hch => by cases hch
  | .mk c (some cs0), h, cs, hch => by
    cases hch
    rw [fpocChild] at h
    by_cases hl : cs0.length > 0
    · rw [if_pos hl] at h
      exact fpocLoop_notFound tid cs0 cs0 (some (.mk c (some cs0))) h
    · rcases cs0 with _ | ⟨a, t⟩
      · intro hmem
        cases hmem
      · exact absurd (by simp) hl

theorem fpocLoop_notFound (tid : Nat) :
    ∀ (iter searchList : List JNode) (parent : Option JNode),
      fpocLoop tid searchList parent iter = .notFound →
      tid ∉ forestIds iter
  | [], _, _, _ => by
    intro hmem
    cases hmem
  | f :: rest, searchList, parent, h => by
    rw [fpocLoop] at h
    by_cases hid : (f.id == tid) = true
    · rw [if_pos hid] at h
      cases h
    · rw [if_neg hid] at h
      cases hc : fpocChild tid f with
      | found p2 l2 =>
        rw [hc] at h
        cases h
      | notFound =>
        rw [hc] at h
        have hrest := fpocLoop_notFound tid rest searchList parent h
        rw [forestIds]
        intro hmem
        rcases List.mem_append.mp hmem with h1 | h2
        · rcases f with ⟨fc, och⟩
          rcases och with _ | cs
          · rw [subtreeIds] at h1
            rcases List.mem_singleton.mp h1 with rfl
            exact hid (by simp [JNode.id, JNode.core])
          · rw [subtreeIds] at h1
            rcases List.mem_cons.mp h1 with rfl | h3
            · exact hid (by simp [JNode.id, JNode.core])
            · exact fpocChild_notFound tid _ hc cs rfl h3
        · exact hrest h2
end

mutual
theorem mapByIdT_none (i : Nat) (f : JNode → JNode) :
    ∀ t : JNode, mapByIdT i f t = none → findByIdTree i t = none
  | .mk c none, h => by
    rw [mapByIdT] at h
    rw [findByIdTree]
    by_cases hc : (c.id == i) = true
    · rw [if_pos hc] at h
      cases h
    · rw [if_neg hc]
  | .mk c (some cs), h => by
    rw [mapByIdT] at h
    rw [findByIdTree]
    by_cases hc : (c.id == i) = true
    · rw [if_pos hc] at h
      cases h
    · rw [if_neg hc] at h
      rw [if_neg hc]
      rcases hm : mapByIdL i f cs with _ | cs2
      · exact mapByIdL_none i f cs hm
      · rw [hm] at h
        cases h

theorem mapByIdL_none (i : Nat) (f : JNode → JNode) :
    ∀ l : List JNode, mapByIdL i f l = none → findById i l = none
  | [], _ => rfl
  | n :: ns, h => by
    rw [mapByIdL] at h
    rw [findById]
    rcases hm : mapByIdT i f n with _ | n2
    · rw [hm] at h
      rw [mapByIdT_none i f n hm]
      rcases hml : mapByIdL i f ns with _ | ns2
      · exact mapByIdL_none i f ns hml
      · rw [hml] at h
        cases h
    · rw [hm] at h
      cases h
end

mutual
theorem mapByIdT_spec (i : Nat) (f : JNode → JNode) :
    ∀ (t t2 : JNode), mapByIdT i f t = some t2 →
      ∃ n X, findByIdTree i t = some n ∧
        subM t = subM n + X ∧ subM t2 = subM (f n) + X
  | .mk c none, t2, h => by
    rw [mapByIdT] at h
    by_cases hc : (c.id == i) = true
    · rw [if_pos hc] at h
      cases h
      refine ⟨.mk c none, 0, ?_, by rw [add_zero], by rw [add_zero]⟩
      rw [findByIdTree, if_pos hc]
    · rw [if_neg hc] at h
      cases h
  | .mk c (some cs), t2, h => by
    rw [mapByIdT] at h
    by_cases hc : (c.id == i) = true
    · rw [if_pos hc] at h
      cases h
      refine ⟨.mk c (some cs), 0, ?_, by rw [add_zero], by rw [add_zero]⟩
      rw [findByIdTree, if_pos hc]
    · rw [if_neg hc] at h
      rcases hm : mapByIdL i f cs with _ | cs2
      · rw [hm] at h
        cases h
      · rw [hm] at h
        cases h
        rcases mapByIdL_spec i f cs cs2 hm with ⟨n, X, hfind, h1, h2⟩
        refine ⟨n, {c.id} + X, ?_, ?_, ?_⟩
        · rw [findByIdTree, if_neg hc]
          exact hfind
        · rw [subM_mk_some, ← Multiset.singleton_add, h1]
          abel
        · rw [subM_mk_some, ← Multiset.singleton_add, h2]
          abel

theorem mapByIdL_spec (i : Nat) (f : JNode → JNode) :
    ∀ (l l2 : List JNode), mapByIdL i f l = some l2 →
      ∃ n X, findById i l = some n ∧
        idsM l = subM n + X ∧ idsM l2 = subM (f n) + X
  | [], l2, h => by
    rw [mapByIdL] at h
    cases h
  | n0 :: ns, l2, h => by
    rw [mapByIdL] at h
    rcases hm : mapByIdT i f n0 with _ | n2
    · rw [hm] at h
      rcases hml : mapByIdL i f ns with _ | ns2
      · rw [hml] at h
        cases h
      · rw [hml] at h
        cases h
        rcases mapByIdL_spec i f ns ns2 hml with ⟨n, X, hfind, h1, h2⟩
        refine ⟨n, subM n0 + X, ?_, ?_, ?_⟩
        · rw [findById, mapByIdT_none i f n0 hm]
          exact hfind
        · rw [idsM_cons, h1]
          abel
        · rw [idsM_cons, h2]
          abel
    · rw [hm] at h
      cases h
      rcases mapByIdT_spec i f n0 n2 hm with ⟨n, X, hfind, h1, h2⟩
      refine ⟨n, X + idsM ns, ?_, ?_, ?_⟩
      · rw [findById, hfind]
      · rw [idsM_cons, h1]
        abel
      · rw [idsM_cons, h2]
        abel
end

theorem idsM_mapById_of_findById (i : Nat) (f : JNode → JNode)
    (l : List JNode) (n : JNode) (hfind : findById i l = some n) :
    idsM (mapById i f l) + subM n = idsM l + subM (f n) := by
  rw [mapById]
  rcases hm : mapByIdL i f l with _ | l2
  · rw [mapByIdL_none i f l hm] at hfind
    cases hfind
  · rcases mapByIdL_spec i f l l2 hm with ⟨n2, X, hfind2, h1, h2⟩
    rw [hfind2] at hfind
    cases hfind
    rw [Option.getD_some, h1, h2]
    abel

theorem idsM_mapById_preserve (i : Nat) (f : JNode → JNode)
    (l : List JNode) (hf : ∀ m, subM (f m) = subM m) :
    idsM (mapById i f l) = idsM l := by
  rw [mapById]
  rcases hm : mapByIdL i f l with _ | l2
  · rfl
  · rcases mapByIdL_spec i f l l2 hm with ⟨n, X, _, h1, h2⟩
    rw [Option.getD_some, h2, hf, ← h1]

theorem subM_updateParentHeight (cH : JNode → Int) (t : JNode) :
    subM (updateParentHeight cH t) = subM t := by
  rcases t with ⟨c, och⟩
  rcases och with _ | cs <;> rfl

theorem subM_setPos (nx ny : Int) (t : JNode) :
    subM (setPos nx ny t) = subM t := by
  rcases t with ⟨c, och⟩
  rcases och with _ | cs <;> rfl

mutual
theorem subM_reposition (cH : JNode → Int) :
    ∀ t : JNode, subM (repositionChildrenInParent cH t) = subM t
  | .mk c none => rfl
  | .mk c (some cs) => by
    rw [repositionChildrenInParent]
    rw [subM_mk_some, subM_mk_some, idsM_repositionList cH cs]

theorem idsM_repositionList (cH : JNode → Int) :
    ∀ l : List JNode, idsM (repositionList cH l) = idsM l
  | [] => rfl
  | .mk d none :: rest => by
    rw [repositionList, idsM_cons, idsM_cons, idsM_repositionList cH rest]
  | .mk d (some ds) :: rest => by
    rw [repositionList, idsM_cons, idsM_cons, idsM_repositionList cH rest]
    by_cases hl : ds.length > 0
    · rw [if_pos hl, subM_reposition cH (.mk d (some ds))]
    · rw [if_neg hl]
end

theorem idsM_mapById_eqs (i : Nat) (f : JNode → JNode) (l : List JNode)
    (n : JNode) (hfind : findById i l = some n) :
    ∃ X, idsM l = subM n + X ∧ idsM (mapById i f l) = subM (f n) + X := by
  rw [mapById]
  rcases hm : mapByIdL i f l with _ | l2
  · rw [mapByIdL_none _ _ _ hm] at hfind
    cases hfind
  · rcases mapByIdL_spec i f l l2 hm with ⟨n2, X, hfind2, h1, h2⟩
    rw [hfind2] at hfind
    cases hfind
    exact ⟨X, h1, by rw [Option.getD_some]; exact h2⟩

theorem findIdx_isSome_of_mem (tid : Nat) :
    ∀ l : List JNode, (∃ n ∈ l, n.id = tid) →
      ∃ i, l.findIdx? (fun n => n.id == tid) = some i := by
  intro l
  induction l with
  | nil =>
    rintro ⟨n, hn, _⟩
    cases hn
  | cons a t ih =>
    rintro ⟨n, hn, hid⟩
    rw [List.findIdx?_cons]
    by_cases ha : a.id = tid
    · simp only [ha, beq_self_eq_true, if_true]
      exact ⟨0, rfl⟩
    · simp only [(by simpa using ha : (a.id == tid) = false), Bool.false_eq_true,
        if_false, List.findIdx?_start_succ]
      rcases List.mem_cons.mp hn with rfl | hn2
      · exact absurd hid ha
      · rcases ih ⟨n, hn2, hid⟩ with ⟨i, hi⟩
        exact ⟨i + 1, by simp [hi]⟩

theorem idsM_push_layer (i : Nat) (d : JNode) (l cs3 : List JNode)
    (hg : (findById i l).bind JNode.children = some cs3) :
    idsM (mapById i (pushChildTotal d) l) = subM d + idsM l := by
  rcases hfg : findById i l with _ | n
  · rw [hfg, Option.none_bind] at hg
    cases hg
  · rw [hfg, Option.some_bind] at hg
    rcases idsM_mapById_eqs i (pushChildTotal d) l n hfg with ⟨X, h1, h2⟩
    rcases n with ⟨nc, och⟩
    rw [JNode.children] at hg
    subst hg
    rw [show pushChildTotal d (JNode.mk nc (some cs3)) =
        JNode.mk nc (some (cs3 ++ [d])) from rfl, subM_mk_some, idsM_append] at h2
    rw [subM_mk_some] at h1
    have hd : idsM [d] = subM d := by rw [idsM_cons, idsM_nil, add_zero]
    rw [hd] at h2
    rw [h2, h1]
    simp only [← Multiset.singleton_add]
    abel

/-- C10: the claim says `removeFile(target, files)` completes without
throwing for any target and scene, including scenes whose top-level list has
an event box (created without a `children` field) before the subtree holding
a nested target. Evaluating the model at exactly that scene shows the call
throws: the recursive walk reaches the event box `sampleHook` (whose
`children` is `undefined`) before the subtree `sampleP` containing the target
`sampleC`, and `undefined.indexOf` raises a `TypeError`. -/
theorem C10_removeFile_throws_on_event_box :
    removeFile 3 [] none (some [sampleHook, sampleP]) =
      .error "TypeError: Cannot read properties of undefined (reading indexOf)" :=
  rfl

/-- C2: the claim says Ctrl/Cmd-click duplication inserts a value-copied
sibling and selects it. Evaluating `duplicateComponent` on a plain one-node
scene shows the operation instead throws before inserting anything:
`findParentOfComponent` returns the object `{parent, list}`, the truthiness
test `if (parentList)` always passes, and `parentList.push` is not a
function. -/
theorem C2_duplicate_throws :
    duplicateComponent sampleA 5 5 100 stDup =
      .error "TypeError: parentList.push is not a function" :=
  rfl

/-- C3: the claim says every mutating operation pushes its history snapshot
strictly before the mutation, connection creation included, so the topmost
entry equals the pre-mutation state. Evaluating the connection-commit on a
scene with no connections shows the only history entry already contains the
new connection (the post-mutation state), not the pre-mutation empty list:
the source pushes the connection first and calls `saveState()` after. -/
theorem C3_snapshot_pushed_after_mutation :
    ((commitConnection 1 2 99 stPair).history.map fun s =>
        s.connections.map fun sc => (sc.id, sc.fromNode.id, sc.toNode.id)) =
      [[(99, 1, 2)]] ∧
    stPair.connections = [] ∧
    (commitConnection 1 2 99 stPair).connections = [⟨99, 1, 2⟩] :=
  ⟨rfl, rfl, rfl⟩

/-- C4 counterexample: deleting `sampleP` removes its whole subtree
(including the nested `sampleC`, id 3), but the connection from `sampleC` to
`sampleB` survives, so a connection referencing a node that is no longer
present remains — refuting the part of the claim that says connections whose
endpoint is a removed descendant are also removed. -/
theorem C4_descendant_connection_survives :
    removeFile 4 [⟨70, 3, 2⟩] none (some [sampleP, sampleB]) =
      .ok sampleRemoveOut ∧
    sampleRemoveOut.conns = [⟨70, 3, 2⟩] ∧
    forestIds [sampleP, sampleB] = [4, 3, 2] ∧
    forestIds sampleRemoveOut.list = [2] :=
  ⟨rfl, rfl, rfl, rfl⟩

/-- C6 counterexample: connection creation is a mutating operation that
pushes a history snapshot, but performing it and then undoing it does not
restore the pre-operation scene: the snapshot is pushed after the
connections array was mutated, so undo lands on the post-mutation
connections. -/
theorem C6_undo_does_not_roundtrip_connection_create :
    (undo (commitConnection 1 2 99 stPair)).connections = [⟨99, 1, 2⟩] ∧
    stPair.connections = [] ∧
    (undo (commitConnection 1 2 99 stPair)).connections ≠ stPair.connections :=
  ⟨rfl, rfl, by decide⟩

/-- C9 counterexample: after a pointer-down selecting a connection and a
second pointer-down plain-clicking a node, both the node and the connection
are selected simultaneously — `clearSelection()` and the node-click branch
never clear `selectedConnection`, refuting mutual exclusivity. -/
theorem C9_node_and_connection_both_selected :
    stSelAfterNodeClick.selectedFile = some 1 ∧
    stSelAfterNodeClick.selectedConnection = some ⟨5, 1, 2⟩ :=
  ⟨rfl, rfl⟩

/-- C4 (amended): deleting a node X removes X's whole subtree (root id and
descendant ids all leave the forest, as the multiset identity states) and
removes exactly the connections with `from === X` or `to === X` — the list of
surviving connections is the filter by direct endpoints, so connections whose
endpoint is a removed descendant of X are kept (dangling), not removed. -/
theorem C4_remove_cascade_amended :
    ∀ (tid : Nat) (conns : List Conn) (sc : Option Conn) (l : List JNode)
      (r : RemoveOut),
      removeFile tid conns sc (some l) = .ok r → r.found = true →
      r.conns = conns.filter (fun c => c.fromId != tid && c.toId != tid) ∧
      ∃ sub, sub ∈ flattenComponents l ∧ sub.id = tid ∧
        idsM l = subM sub + idsM r.list := by
  intro tid conns sc l r h hf
  rcases removeFile_found_spec tid conns sc l r h hf with ⟨h1, h2, _⟩
  exact ⟨h2, h1⟩

/-- Witness for C4 (amended): the concrete deletion of `sampleP` from
`[sampleP, sampleB]` satisfies the amended cascade description. -/
theorem C4_remove_cascade_witness :
    sampleRemoveOut.conns =
      List.filter (fun c => c.fromId != 4 && c.toId != 4) [⟨70, 3, 2⟩] ∧
    ∃ sub, sub ∈ flattenComponents [sampleP, sampleB] ∧ sub.id = 4 ∧
      idsM [sampleP, sampleB] = subM sub + idsM sampleRemoveOut.list :=
  C4_remove_cascade_amended 4 [⟨70, 3, 2⟩] none [sampleP, sampleB]
    sampleRemoveOut rfl rfl

/-- C8: `findDropTarget` never returns the dragged node, never returns a
descendant of the dragged node (so `isDescendantOf(target, dragged)` is false
for every resolved target and no committed reparent can create a cycle),
never returns an event box, and returns `null` whenever an event box is
dragged. -/
theorem C8_drop_target_safety :
    ∀ (x y : Int) (dragged : JNode) (l : List JNode),
      (∀ t, findDropTarget x y dragged l = some t →
        t.id ≠ dragged.id ∧ isDescendantOf t.id dragged = false ∧
          t.isEventBox = false) ∧
      (dragged.isEventBox = true → findDropTarget x y dragged l = none) := by
  intro x y dragged l
  constructor
  · intro t h
    rw [findDropTarget] at h
    by_cases he : dragged.isEventBox
    · rw [if_pos he] at h; cases h
    · rw [if_neg he] at h
      rcases hn : findDropTargetNested x y dragged l with _ | t2
      · rw [hn] at h
        exact findDropTargetLevel_spec x y dragged l t h
      · rw [hn] at h
        cases h
        exact findDropTargetNested_spec x y dragged l t hn
  · intro he
    rw [findDropTarget, if_pos he]

/-- Witness for C8: dropping `sampleA` at (350,20) over the scene
`[sampleA, sampleB]` resolves `sampleB`, which indeed is not the dragged
node, not one of its descendants, and not an event box. -/
theorem C8_drop_target_witness :
    sampleB.id ≠ sampleA.id ∧ isDescendantOf sampleB.id sampleA = false ∧
      sampleB.isEventBox = false :=
  (C8_drop_target_safety 350 20 sampleA [sampleA, sampleB]).1 sampleB rfl

/-- C5: a connection between an unordered pair is unique: committing a
connection when one already joins the pair (in either direction) leaves the
list unchanged; committing on a pair with no connection appends exactly one,
and the reversed second commit is a no-op, so exactly one connection for the
pair remains; and a list with at most one connection for the pair keeps that
property across a commit. -/
theorem C5_connection_pair_unique :
    ∀ (a b now now2 : Nat) (st : AppState),
      (∀ c, connectionExists a b st.connections = some c →
        (commitConnection a b now st).connections = st.connections) ∧
      (connectionExists a b st.connections = none →
        (commitConnection a b now st).connections =
          st.connections ++ [⟨now, a, b⟩] ∧
        (commitConnection b a now2 (commitConnection a b now st)).connections =
          st.connections ++ [⟨now, a, b⟩] ∧
        List.countP
          (fun c => (c.fromId == a && c.toId == b) ||
            (c.fromId == b && c.toId == a))
          (st.connections ++ [⟨now, a, b⟩]) = 1) ∧
      (List.countP
          (fun c => (c.fromId == a && c.toId == b) ||
            (c.fromId == b && c.toId == a)) st.connections ≤ 1 →
        List.countP
          (fun c => (c.fromId == a && c.toId == b) ||
            (c.fromId == b && c.toId == a))
          (commitConnection a b now st).connections ≤ 1) := by
  intro a b now now2 st
  have hnoop : ∀ (a2 b2 now3 : Nat) (st2 : AppState) (c2 : Conn),
      connectionExists a2 b2 st2.connections = some c2 →
      (commitConnection a2 b2 now3 st2).connections = st2.connections := by
    intro a2 b2 now3 st2 c2 hc2
    rw [commitConnection, hc2]
    rfl
  have hzero : connectionExists a b st.connections = none →
      (st.connections.countP fun c =>
        (c.fromId == a && c.toId == b) || (c.fromId == b && c.toId == a)) = 0 := by
    intro h
    rw [List.countP_eq_zero]
    intro c hc
    have := List.find?_eq_none.mp h c hc
    simpa using this
  refine ⟨?_, ?_, ?_⟩
  · intro c hc
    rw [commitConnection, hc]
    rfl
  · intro hnone
    have h1 : (commitConnection a b now st).connections =
        st.connections ++ [⟨now, a, b⟩] := by
      rw [commitConnection, hnone]
      rfl
    refine ⟨h1, ?_, ?_⟩
    · have hsome : ∃ c2, connectionExists b a
          (st.connections ++ [⟨now, a, b⟩]) = some c2 := by
        rw [connectionExists, List.find?_append]
        rcases hfd : st.connections.find? fun conn =>
            (conn.fromId == b && conn.toId == a) ||
              (conn.fromId == a && conn.toId == b) with _ | d
        · refine ⟨⟨now, a, b⟩, ?_⟩
          rw [hfd]
          simp [List.find?]
        · refine ⟨d, ?_⟩
          rw [hfd]
          simp
      rcases hsome with ⟨c2, hc2⟩
      have hc3 : connectionExists b a
          (commitConnection a b now st).connections = some c2 := by
        rw [h1]; exact hc2
      rw [hnoop b a now2 (commitConnection a b now st) c2 hc3, h1]
    · rw [List.countP_append, hzero hnone]
      simp [List.countP_cons]
  · intro hle
    rcases hc : connectionExists a b st.connections with _ | c
    · have h1 : (commitConnection a b now st).connections =
          st.connections ++ [⟨now, a, b⟩] := by
        rw [commitConnection, hc]
        rfl
      rw [h1, List.countP_append, hzero hc]
      simp [List.countP_cons]
    · rw [hnoop a b now st c hc]
      exact hle

/-- Witness for C5: on the empty connection list of `stPair`, creating the
connection (1,2) and then (2,1) leaves exactly one connection for the pair. -/
theorem C5_connection_pair_witness :
    (commitConnection 1 2 99 stPair).connections =
      stPair.connections ++ [⟨99, 1, 2⟩] ∧
    (commitConnection 2 1 100 (commitConnection 1 2 99 stPair)).connections =
      stPair.connections ++ [⟨99, 1, 2⟩] ∧
    List.countP
      (fun c => (c.fromId == 1 && c.toId == 2) ||
        (c.fromId == 2 && c.toId == 1))
      (stPair.connections ++ [⟨99, 1, 2⟩]) = 1 :=
  ((C5_connection_pair_unique 1 2 99 100 stPair).2.1 rfl)

/-- C9 (amended): after any pointer-down transition the node-selection forms
stay mutually exclusive (never both a single selected node and a non-empty
multi-selection), and hitting a connection selects it and clears every node
selection; but the converse does not hold — selecting a node leaves a
previously selected connection selected (see the counterexample), so a node
and a connection can be selected simultaneously. -/
theorem C9_selection_amended :
    ∀ (cc : Option Conn) (cf : Option JNode) (ctrl : Bool) (st : AppState),
      ((st.selectedFile = none ∨ st.multiSelectedFiles = []) →
        ((mousedownSelect cc cf ctrl st).selectedFile = none ∨
          (mousedownSelect cc cf ctrl st).multiSelectedFiles = [])) ∧
      (∀ c, cc = some c →
        (mousedownSelect cc cf ctrl st).selectedConnection = some c ∧
        (mousedownSelect cc cf ctrl st).selectedFile = none ∧
        (mousedownSelect cc cf ctrl st).multiSelectedFiles = []) := by
  intro cc cf ctrl st
  rcases cc with _ | conn
  · rcases cf with _ | f
    · refine ⟨fun hexcl => ?_, fun c hc => by cases hc⟩
      by_cases hc : ctrl
      · simpa [mousedownSelect, hc] using hexcl
      · left
        simp [mousedownSelect, hc]
    · refine ⟨fun hexcl => ?_, fun c hc => by cases hc⟩
      by_cases hc : ctrl
      · by_cases hm : f.id ∈ st.multiSelectedFiles
        · left
          have hsel : (mousedownSelect none (some f) ctrl st).selectedFile =
              st.selectedFile := by
            simp [mousedownSelect, hc, hm]
          rw [hsel]
          rcases hexcl with h | h
          · exact h
          · rw [h] at hm
            simp at hm
        · left
          simp [mousedownSelect, hc, hm]
      · by_cases hm : f.id ∈ st.multiSelectedFiles
        · have hsel : (mousedownSelect none (some f) ctrl st).selectedFile =
              st.selectedFile := by
            simp [mousedownSelect, hc, hm]
          have hmul : (mousedownSelect none (some f) ctrl st).multiSelectedFiles =
              st.multiSelectedFiles := by
            simp [mousedownSelect, hc, hm]
          rw [hsel, hmul]
          exact hexcl
        · right
          simp [mousedownSelect, hc, hm, apply_ite AppState.multiSelectedFiles]
  · refine ⟨fun _ => Or.inl rfl, fun c hc => ?_⟩
    cases hc
    exact ⟨rfl, rfl, rfl⟩

/-- Witness for C9 (amended): on the concrete scene `stSel`, a pointer-down
hitting the connection selects it and clears the node selection, and the
exclusivity of the node-selection forms is preserved. -/
theorem C9_selection_witness :
    ((mousedownSelect (some ⟨5, 1, 2⟩) none false stSel).selectedFile = none ∨
      (mousedownSelect (some ⟨5, 1, 2⟩) none false stSel).multiSelectedFiles =
        []) ∧
    (mousedownSelect (some ⟨5, 1, 2⟩) none false stSel).selectedConnection =
      some ⟨5, 1, 2⟩ :=
  ⟨(C9_selection_amended (some ⟨5, 1, 2⟩) none false stSel).1 (Or.inl rfl),
    ((C9_selection_amended (some ⟨5, 1, 2⟩) none false stSel).2 ⟨5, 1, 2⟩
      rfl).1⟩

/-- C6 (amended): for a mutating operation that pushes its snapshot before
mutating — here the deletion of the selected component — undoing restores the
tree, the connections and the stored selection references to their
pre-operation values, provided every connection endpoint is present in the
tree and is recovered unambiguously by the name/x/y/type field matching of
`reconstructConnections`. (Connection creation and expand/collapse toggling
push their snapshot after mutating, so the round-trip fails for them — see
the counterexample; the tree and connection snapshots are deep copies, while
the selection is stored by reference.) -/
theorem C6_undo_roundtrip_amended :
    ∀ (st : AppState) (sid : Nat) (st2 : AppState),
      st.selectedFile = some sid →
      st.selectedConnection = none →
      (∀ c ∈ st.connections, ∃ nf nt, findById c.fromId st.files = some nf ∧
        findById c.toId st.files = some nt ∧
        findComponentByProperties (flattenComponents st.files) nf = some nf ∧
        findComponentByProperties (flattenComponents st.files) nt = some nt) →
      deleteSelectedComponent st = .ok st2 →
      (undo st2).files = st.files ∧
      (undo st2).connections = st.connections ∧
      (undo st2).selectedFile = st.selectedFile ∧
      (undo st2).selectedChild = st.selectedChild ∧
      (undo st2).multiSelectedFiles = st.multiSelectedFiles ∧
      (undo st2).selectedConnection = st.selectedConnection := by
  intro st sid st2 hsel hconn hmatch hdel
  rw [deleteSelectedComponent, hsel] at hdel
  dsimp only at hdel
  rcases hrm : removeFile sid (saveState st).connections
      (saveState st).selectedConnection (some (saveState st).files) with e | r
  · rw [hrm] at hdel
    cases hdel
  · rw [hrm] at hdel
    dsimp only at hdel
    cases hdel
    rcases undo_fields
        { saveState st with files := r.list, connections := r.conns,
                            selectedConnection := r.selConn,
                            selectedFile := none, selectedChild := none,
                            multiSelectedFiles := [] }
        (mkSnapshot st) (saveState_history_getLast st) with
      ⟨u1, u2, u3, u4, u5, u6⟩
    have hrm2 : removeFile sid (saveState st).connections none
        (some (saveState st).files) = .ok r := by
      rw [← hconn]
      exact hrm
    have hrnone : r.selConn = none :=
      removeFile_selConn_none sid (saveState st).connections
        (saveState st).files r hrm2
    refine ⟨u1, ?_, u3, u4, u5, ?_⟩
    · exact u2.trans
        (reconstruct_filterMap_self st.files st.connections hmatch)
    · exact u6.trans (hrnone.trans hconn.symm)

/-- Witness for C6 (amended): deleting the selected component of the
concrete scene `stDel` and undoing restores files, connections and all
selection fields. -/
theorem C6_undo_roundtrip_witness :
    (undo stDelResult).files = stDel.files ∧
    (undo stDelResult).connections = stDel.connections ∧
    (undo stDelResult).selectedFile = stDel.selectedFile ∧
    (undo stDelResult).selectedChild = stDel.selectedChild ∧
    (undo stDelResult).multiSelectedFiles = stDel.multiSelectedFiles ∧
    (undo stDelResult).selectedConnection = stDel.selectedConnection :=
  C6_undo_roundtrip_amended stDel 1 stDelResult rfl rfl
    (by
      intro c hc
      rw [List.mem_singleton.mp hc]
      exact ⟨sampleA, sampleB, rfl, rfl, rfl, rfl⟩)
    rfl

/-- C1: the drop-commit step of the `mouseup` handler — the one scene
transition that reparents — keeps every node in exactly one list. Starting
from a scene in which every node id appears exactly once (the id list of the
forest is duplicate-free) and in which the dragged node really is in the
tree, any successful commit yields a scene whose id multiset is unchanged
and still duplicate-free: the handler removes the dragged node from its
current container before appending it to the drop target's children (or to
the top-level list), so no node ends up in two lists or in none. -/
theorem C1_drop_commit_keeps_each_node_in_exactly_one_list
    (computeH : JNode → Int) (x y offX offY : Int) (dragged : JNode)
    (st st2 : AppState)
    (hnodup : (forestIds st.files).Nodup)
    (hcoh : findById dragged.id st.files = some dragged)
    (hok : commitDrop computeH x y offX offY dragged st = .ok st2) :
    idsM st2.files = idsM st.files ∧ (forestIds st2.files).Nodup := by
  have hnodup2 : (forestIds (saveState st).files).Nodup := hnodup
  have hmemD : dragged ∈ flattenComponents (saveState st).files :=
    (findById_spec dragged.id st.files dragged hcoh).1
  have hidD : dragged.id ∈ forestIds (saveState st).files := by
    rw [forestIds_eq_map]
    exact List.mem_map_of_mem _ hmemD
  suffices hmain : idsM st2.files = idsM st.files by
    refine ⟨hmain, ?_⟩
    have hperm : (forestIds st2.files).Perm (forestIds st.files) :=
      Multiset.coe_eq_coe.mp hmain
    exact hperm.nodup_iff.mpr hnodup
  unfold commitDrop at hok
  dsimp only at hok
  rcases hdt : (if dragged.isEventBox = true then (none : Option JNode)
      else findDropTarget x y dragged (saveState st).files) with _ | dt
  · -- no drop target: keep in place or promote to top level
    rw [hdt] at hok
    dsimp only at hok
    by_cases hTop :
        ((saveState st).files.any fun n => n.id == dragged.id) = true
    · rw [if_pos hTop] at hok
      cases hok
      rfl
    · rw [if_neg hTop] at hok
      cases hfp : findParentOfComponent dragged.id (saveState st).files none with
      | notFound =>
        rw [hfp] at hok
        dsimp only at hok
        cases hok
        rfl
      | found pOpt l =>
        rw [hfp] at hok
        rcases pOpt with _ | p
        · dsimp only at hok
          cases hok
          rfl
        · dsimp only at hok
          rw [findParentOfComponent] at hfp
          rcases fpocLoop_spec dragged.id (saveState st).files
              (saveState st).files none (fun n hn => hn) (some p) l hfp with
            ⟨hex, hcase⟩
          rcases hcase with ⟨hpn, _⟩ | ⟨q, cs, hpq, hch, rfl, hpm⟩
          · cases hpn
          · cases hpq
            rcases findIdx_isSome_of_mem dragged.id l hex with ⟨i, hidx⟩
            have hrm : removeFile dragged.id (saveState st).connections
                (saveState st).selectedConnection (some l) =
                .ok (removeHere dragged.id (saveState st).connections
                  (saveState st).selectedConnection l i) := by
              rw [removeFile, hidx]
            rw [hrm] at hok
            dsimp only at hok
            cases hok
            dsimp only
            rcases p with ⟨pc, poch⟩
            rw [JNode.children] at hch
            subst hch
            rcases findIdx_erase_idsM dragged.id l i hidx with
              ⟨sub, hsubl, hsubid, heq⟩
            have hsubT : sub ∈ flattenTree (JNode.mk pc (some l)) := by
              rw [flattenTree_mk_some]
              exact List.mem_cons_of_mem _ (mem_flatten_of_mem hsubl)
            have hsubF : sub ∈ flattenComponents (saveState st).files :=
              mem_flattenList_trans (saveState st).files
                (JNode.mk pc (some l)) sub hpm hsubT
            have hde : sub = dragged :=
              flatten_id_inj hnodup2 hsubF hmemD hsubid
            rw [hde] at heq
            rw [idsM_mapById_preserve _ _ _ (subM_setPos (x - offX) (y - offY)),
              idsM_mapById_preserve _ _ _ (subM_reposition computeH),
              idsM_mapById_preserve _ _ _ (subM_updateParentHeight computeH),
              idsM_append]
            have hRL : (removeHere dragged.id (saveState st).connections
                (saveState st).selectedConnection l i).list = l.eraseIdx i := rfl
            rw [hRL]
            rcases idsM_mapById_eqs (JNode.mk pc (some l)).id
                (setChildren (l.eraseIdx i)) (saveState st).files
                (JNode.mk pc (some l)) (findById_of_mem hnodup2 hpm) with
              ⟨X, hX1, hX2⟩
            rw [hX2, show setChildren (l.eraseIdx i) (JNode.mk pc (some l)) =
                JNode.mk pc (some (l.eraseIdx i)) from rfl, subM_mk_some]
            have hd : idsM [dragged] = subM dragged := by
              rw [idsM_cons, idsM_nil, add_zero]
            rw [hd]
            have hfe : idsM st.files = idsM (saveState st).files := rfl
            rw [hfe, hX1, subM_mk_some, heq]
            simp only [← Multiset.singleton_add]
            abel
  · -- a drop target: remove from the old container, push into the target
    rw [hdt] at hok
    dsimp only at hok
    cases hfp : findParentOfComponent dragged.id (saveState st).files none with
    | notFound =>
      rw [findParentOfComponent] at hfp
      exact absurd hidD (fpocLoop_notFound dragged.id (saveState st).files
        (saveState st).files none hfp)
    | found pOpt l =>
      rw [hfp] at hok
      rcases pOpt with _ | p
      · -- dragged sits in the top-level list
        dsimp only at hok
        rw [findParentOfComponent] at hfp
        rcases fpocLoop_spec dragged.id (saveState st).files
            (saveState st).files none (fun n hn => hn) none l hfp with
          ⟨hex, hcase⟩
        rcases hcase with ⟨_, rfl⟩ | ⟨q, cs, hpq, _, _, _⟩
        · rcases findIdx_isSome_of_mem dragged.id (saveState st).files hex with
            ⟨i, hidx⟩
          have hrm : removeFile dragged.id (saveState st).connections
              (saveState st).selectedConnection (some (saveState st).files) =
              .ok (removeHere dragged.id (saveState st).connections
                (saveState st).selectedConnection (saveState st).files i) := by
            rw [removeFile, hidx]
          rw [hrm] at hok
          dsimp only at hok
          rcases hg : (findById dt.id (removeHere dragged.id
              (saveState st).connections (saveState st).selectedConnection
              (saveState st).files i).list).bind JNode.children with _ | cs3
          · rw [hg] at hok
            cases hok
          · rw [hg] at hok
            dsimp only at hok
            cases hok
            dsimp only
            rw [idsM_mapById_preserve _ _ _ (subM_reposition computeH),
              idsM_push_layer _ dragged _ _ hg]
            have hRL : (removeHere dragged.id (saveState st).connections
                (saveState st).selectedConnection (saveState st).files i).list =
                (saveState st).files.eraseIdx i := rfl
            rw [hRL]
            rcases findIdx_erase_idsM dragged.id (saveState st).files i hidx with
              ⟨sub, hsubl, hsubid, heq⟩
            have hde : sub = dragged :=
              flatten_id_inj hnodup2 (mem_flatten_of_mem hsubl) hmemD hsubid
            rw [hde] at heq
            have hfe : idsM st.files = idsM (saveState st).files := rfl
            rw [hfe, heq]
        · cases hpq
      · -- dragged sits in some parent's children list
        dsimp only at hok
        rw [findParentOfComponent] at hfp
        rcases fpocLoop_spec dragged.id (saveState st).files
            (saveState st).files none (fun n hn => hn) (some p) l hfp with
          ⟨hex, hcase⟩
        rcases hcase with ⟨hpn, _⟩ | ⟨q, cs, hpq, hch, rfl, hpm⟩
        · cases hpn
        · cases hpq
          rcases findIdx_isSome_of_mem dragged.id l hex with ⟨i, hidx⟩
          have hrm : removeFile dragged.id (saveState st).connections
              (saveState st).selectedConnection (some l) =
              .ok (removeHere dragged.id (saveState st).connections
                (saveState st).selectedConnection l i) := by
            rw [removeFile, hidx]
          rw [hrm] at hok
          dsimp only at hok
          rcases p with ⟨pc, poch⟩
          rw [JNode.children] at hch
          subst hch
          rcases findIdx_erase_idsM dragged.id l i hidx with
            ⟨sub, hsubl, hsubid, heq⟩
          have hsubT : sub ∈ flattenTree (JNode.mk pc (some l)) := by
            rw [flattenTree_mk_some]
            exact List.mem_cons_of_mem _ (mem_flatten_of_mem hsubl)
          have hsubF : sub ∈ flattenComponents (saveState st).files :=
            mem_flattenList_trans (saveState st).files
              (JNode.mk pc (some l)) sub hpm hsubT
          have hde : sub = dragged :=
            flatten_id_inj hnodup2 hsubF hmemD hsubid
          rw [hde] at heq
          rcases hg : (findById dt.id (mapById (JNode.mk pc (some l)).id
              (repositionChildrenInParent computeH)
              (mapById (JNode.mk pc (some l)).id
                (updateParentHeight computeH)
                (mapById (JNode.mk pc (some l)).id
                  (setChildren (removeHere dragged.id
                    (saveState st).connections
                    (saveState st).selectedConnection l i).list)
                  (saveState st).files)))).bind JNode.children with _ | cs3
          · rw [hg] at hok
            cases hok
          · rw [hg] at hok
            dsimp only at hok
            cases hok
            dsimp only
            rw [idsM_mapById_preserve _ _ _ (subM_reposition computeH),
              idsM_push_layer _ dragged _ _ hg,
              idsM_mapById_preserve _ _ _ (subM_reposition computeH),
              idsM_mapById_preserve _ _ _ (subM_updateParentHeight computeH)]
            have hRL : (removeHere dragged.id (saveState st).connections
                (saveState st).selectedConnection l i).list = l.eraseIdx i := rfl
            rw [hRL]
            rcases idsM_mapById_eqs (JNode.mk pc (some l)).id
                (setChildren (l.eraseIdx i)) (saveState st).files
                (JNode.mk pc (some l)) (findById_of_mem hnodup2 hpm) with
              ⟨X, hX1, hX2⟩
            rw [hX2, show setChildren (l.eraseIdx i) (JNode.mk pc (some l)) =
                JNode.mk pc (some (l.eraseIdx i)) from rfl, subM_mk_some]
            have hfe : idsM st.files = idsM (saveState st).files := rfl
            rw [hfe, hX1, subM_mk_some, heq]
            simp only [← Multiset.singleton_add]
            abel

/-- Witness for C1 at a concrete scene: dropping component A (box at the
origin) onto component B (box at x = 300) with the pointer at (350, 20)
succeeds and keeps the id multiset `{1, 2}` duplicate-free. -/
theorem C1_drop_commit_keeps_each_node_in_exactly_one_list_witness :
    idsM stDropResult.files = idsM stPair.files ∧
      (forestIds stDropResult.files).Nodup :=
  C1_drop_commit_keeps_each_node_in_exactly_one_list (fun _ => 0) 350 20 0 0
    sampleA stPair stDropResult (by decide) rfl rfl

end DraftCanvas
